import Mathlib

set_option maxRecDepth 200000

/-!
Verification of the natural-language specification of
`src/course-deploy/update-dropdown.py`, a post-render tool that injects a
version dropdown, an archive-version list and a deprecation banner into
generated HTML files.

The Python functions are shallowly embedded as pure Lean functions on
`String` (file contents and paths are strings; the filesystem state needed
by `get_available_versions` is passed explicitly as an optional list of
directory entries).  The regular expressions of the source are modelled by
hand-written matchers that follow the semantics of the Python `re` module
for exactly the patterns the source uses, including leftmost scanning,
non-greedy and greedy repetition with backtracking, the `$` anchor (which
in Python also matches just before one trailing newline), and
ASCII-level case-insensitivity where the source compiles with
`re.IGNORECASE`.  Characters are modelled at the ASCII level, which covers
the HTML and path inputs this tool processes.
-/

/-! ## Character-level utilities (models of `\s`, `\w`, `\d` and `re.IGNORECASE`) -/

/-- Model of the regex class `\s` on ASCII text: space, tab, newline,
carriage return, vertical tab, form feed. -/
def pyWs (c : Char) : Bool :=
  c == ' ' || c == '\t' || c == '\n' || c == '\r' || c == '\x0b' || c == '\x0c'

/-- ASCII lower-casing, the case-folding relevant to the ASCII-only patterns
compiled with `re.IGNORECASE` in the source. -/
def lowerC (c : Char) : Char :=
  if 'A' ≤ c && c ≤ 'Z' then Char.ofNat (c.toNat + 32) else c

/-- Case-insensitive character comparison. -/
def ciEq (a b : Char) : Bool := lowerC a == lowerC b

/-- Model of the regex class `\w` on ASCII text (used for `\b` boundaries). -/
def wordChar (c : Char) : Bool := c.isAlphanum || c == '_'

/-- Match a literal pattern (case-sensitive) at the head of the input;
returns the rest of the input after the literal. -/
def matchLit : List Char → List Char → Option (List Char)
  | [], l => some l
  | _ :: _, [] => none
  | p :: ps, c :: cs => if c == p then matchLit ps cs else none

/-- Match a literal pattern case-insensitively at the head of the input. -/
def matchLitCI : List Char → List Char → Option (List Char)
  | [], l => some l
  | _ :: _, [] => none
  | p :: ps, c :: cs => if ciEq c p then matchLitCI ps cs else none

/-- Case-insensitive equality of two character lists of equal length. -/
def ciEqList : List Char → List Char → Bool
  | [], [] => true
  | x :: xs, y :: ys => ciEq x y && ciEqList xs ys
  | _, _ => false

/-- Length of the maximal run of characters satisfying `p` at the head of
the list: the extent a greedy `X*` consumes before its deterministic
continuation. -/
def runLen (p : Char → Bool) : List Char → Nat
  | [] => 0
  | c :: cs => if p c then runLen p cs + 1 else 0

/-- Length of the maximal whitespace run at the head (greedy `\s*`). -/
def wsCount (l : List Char) : Nat := runLen pyWs l

/-- Leftmost scan: try the position matcher `f` at every suffix, left to
right, and return the prefix before the first position where it succeeds
together with its result.  This is the search loop of `re.search`,
`re.sub` (first match) and of the substring test `in`. -/
def scanSplit {α : Type} (f : List Char → Option α) : List Char → Option (List Char × α)
  | [] =>
    match f [] with
    | some x => some ([], x)
    | none => none
  | c :: cs =>
    match f (c :: cs) with
    | some x => some ([], x)
    | none =>
      match scanSplit f cs with
      | some (pre, x) => some (c :: pre, x)
      | none => none

/-- Model of the Python substring test `pat in s` (case-sensitive). -/
def occursIn (s pat : String) : Bool :=
  (scanSplit (fun t => matchLit pat.data t) s.data).isSome

/-- Case-insensitive substring occurrence. -/
def occursInCI (s pat : String) : Bool :=
  (scanSplit (fun t => matchLitCI pat.data t) s.data).isSome

/-- Model of Python `s.replace(old, new, 1)` for a non-empty `old`:
replace the first occurrence, if any. -/
def replaceFirst (s old new : String) : String :=
  match scanSplit (fun t => matchLit old.data t) s.data with
  | some (pre, rest) => String.mk (pre ++ new.data ++ rest)
  | none => s

/-! ## Version Discovery (`get_available_versions`, lines 14-31) -/

/-- The body `\d{4}\.\d{2}\.\d{2}` of the version regex, matched against an
exact ten-character list. -/
def versionShape : List Char → Bool
  | [y1, y2, y3, y4, p1, m1, m2, p2, d1, d2] =>
    y1.isDigit && y2.isDigit && y3.isDigit && y4.isDigit && p1 == '.' &&
      m1.isDigit && m2.isDigit && p2 == '.' && d1.isDigit && d2.isDigit
  | _ => false

/-- Model of `re.match(r"^\d{4}\.\d{2}\.\d{2}$", s)`: in Python `$` matches
at the end of the string or just before one final newline, so a name with a
single trailing newline is also accepted. -/
def pyVersionMatch (s : String) : Bool :=
  versionShape s.data || (versionShape s.data.dropLast && s.data.getLast? == some '\n')

/-- One entry of the archive directory listing: its name and whether it is
a directory (the result of `item.is_dir()`). -/
structure DirEntry where
  name : String
  isDir : Bool

/-- Descending lexicographic order on strings, the order produced by
`versions.sort(reverse=True)`. -/
def versionDescOrder : String → String → Prop := fun a b => b ≤ a

instance : DecidableRel versionDescOrder :=
  fun a b => inferInstanceAs (Decidable (b ≤ a))

instance : IsTotal String versionDescOrder := ⟨fun a b => le_total b a⟩

instance : IsTrans String versionDescOrder := ⟨fun _ _ _ h1 h2 => le_trans h2 h1⟩

/-- Model of `get_available_versions` (lines 14-31).  The filesystem state
is passed explicitly: `none` models a missing `_site/archive` directory
(`archive_path.exists()` false), `some items` models its entries in
iteration order.  Matching directory names are collected and sorted in
descending lexicographic order. -/
def get_available_versions (archiveDir : Option (List DirEntry)) : List String :=
  let versions : List String :=
    match archiveDir with
    | none => []
    | some items =>
      (items.filter (fun it => it.isDir && pyVersionMatch it.name)).map DirEntry.name
  List.insertionSort versionDescOrder versions

/-! ## Dropdown Renderer (`generate_dropdown_html`, lines 34-84) -/

/-- The badge fragment of `generate_dropdown_html` (lines 44-49).  Python
tests `if current_version:`, which is false for `None` and for the empty
string, so both yield no badge. -/
def badgeHtml (current_version : Option String) : String :=
  match current_version with
  | none => ""
  | some cv =>
    if cv = "" then ""
    else " <span class=\"version-badge\" aria-hidden=\"true\">" ++ cv ++ "</span>"

/-- Model of `generate_dropdown_html(versions, prefix, current_version)`
(lines 34-84), built by the same sequence of string concatenations as the
source: header with optional badge and the fixed Latest entry, then one
entry per displayed version appended in a loop, then the divider plus the
more-versions entry when more than three versions exist, then the closing
tags. -/
def generate_dropdown_html (versions : List String) (pfx : String)
    (current_version : Option String := none) : String :=
  let display_versions : List String :=
    match versions with
    | [] => []
    | _ => versions.take 3
  let has_more : Bool := decide (3 < versions.length)
  let badge_html := badgeHtml current_version
  let dropdown_html :=
    "\n  <li id=\"version-dropdown\" class=\"nav-item dropdown\">\n    <a class=\"nav-link dropdown-toggle\" href=\"#\" id=\"nav-menu-versions\" role=\"link\" data-bs-toggle=\"dropdown\" aria-expanded=\"false\">\n      <span class=\"menu-text\">Version:</span>"
      ++ badge_html
      ++ "\n    </a>\n    <ul class=\"dropdown-menu\" aria-labelledby=\"nav-menu-versions\">\n      <li>\n        <a class=\"dropdown-item\" href=\"/"
      ++ pfx
      ++ "/index.html\">\n          <span class=\"dropdown-text\">Latest</span>\n        </a>\n      </li>"
  let dropdown_html := display_versions.foldl
    (fun acc version => acc
      ++ "\n      <li>\n        <a class=\"dropdown-item\" href=\"/"
      ++ pfx ++ "/archive/" ++ version
      ++ "/index.html\">\n          <span class=\"dropdown-text\">"
      ++ version ++ "</span>\n        </a>\n      </li>")
    dropdown_html
  let dropdown_html :=
    if has_more then
      dropdown_html
        ++ "\n      <li><hr class=\"dropdown-divider\"></li>\n      <li>\n        <a class=\"dropdown-item\" href=\"/"
        ++ pfx
        ++ "/versions.html\">\n          <span class=\"dropdown-text\">More versions...</span>\n        </a>\n      </li>"
    else dropdown_html
  dropdown_html ++ "\n    </ul>\n  </li>"

/-! ## Version Detector (`detect_current_version_from_path`, lines 87-95) -/

/-- Position matcher for `/archive/(\d{4}\.\d{2}\.\d{2})(?:/|$)` after the
version group: a slash, the end of the string, or in Python also the
position just before one final newline. -/
def archTailOk : List Char → Bool
  | [] => true
  | '/' :: _ => true
  | ['\n'] => true
  | _ => false

/-- Try the pattern `/archive/(\d{4}\.\d{2}\.\d{2})(?:/|$)` at the head of
the input; on success return the captured version group. -/
def tryArchiveAt (s : List Char) : Option String :=
  match matchLit "/archive/".data s with
  | none => none
  | some rest =>
    if versionShape (rest.take 10) && archTailOk (rest.drop 10) then
      some (String.mk (rest.take 10))
    else none

/-- Model of `detect_current_version_from_path` (lines 87-95):
`re.search` of the archive pattern over the path, returning the captured
version of the leftmost match, or the sentinel `"Latest"`.  The path is
taken in its POSIX form (for the relative, slash-separated paths the
driver produces, `Path(p).as_posix()` is the identity). -/
def detect_current_version_from_path (p : String) : String :=
  match scanSplit tryArchiveAt p.data with
  | some (_, v) => v
  | none => "Latest"

/-! ## Archive List Renderer (`generate_archive_versions_html`, lines 98-138) -/

/-- English month names for `strftime("%B ...")`. -/
def monthName : Nat → String
  | 1 => "January"
  | 2 => "February"
  | 3 => "March"
  | 4 => "April"
  | 5 => "May"
  | 6 => "June"
  | 7 => "July"
  | 8 => "August"
  | 9 => "September"
  | 10 => "October"
  | 11 => "November"
  | 12 => "December"
  | _ => ""

/-- Gregorian leap-year rule, as used by `datetime` for day validation. -/
def isLeapYear (y : Nat) : Bool :=
  (y % 4 == 0 && y % 100 != 0) || y % 400 == 0

/-- Days in a month, as validated by the `datetime` constructor. -/
def daysInMonth (y m : Nat) : Nat :=
  if m == 2 then (if isLeapYear y then 29 else 28)
  else if m == 4 || m == 6 || m == 9 || m == 11 then 30
  else 31

/-- The `%Y` directive of `strptime`: exactly four digits. -/
def parseYear4 : List Char → Option (Nat × List Char)
  | a :: b :: c :: d :: rest =>
    if a.isDigit && b.isDigit && c.isDigit && d.isDigit then
      some ((a.toNat - 48) * 1000 + (b.toNat - 48) * 100 + (c.toNat - 48) * 10
        + (d.toNat - 48), rest)
    else none
  | _ => none

/-- The `%m` directive of `strptime`, whose regex is `1[0-2]|0[1-9]|[1-9]`
with alternatives tried in that order. -/
def parseMonth : List Char → Option (Nat × List Char)
  | '1' :: c :: rest =>
    if c == '0' || c == '1' || c == '2' then some (10 + (c.toNat - 48), rest)
    else some (1, c :: rest)
  | '0' :: c :: rest =>
    if c.isDigit && c != '0' then some (c.toNat - 48, rest) else none
  | c :: rest =>
    if c.isDigit && c != '0' then some (c.toNat - 48, rest) else none
  | [] => none

/-- The `%d` directive of `strptime`, whose regex is
`3[01]|[12]\d|0[1-9]|[1-9]` with alternatives tried in that order. -/
def parseDay : List Char → Option (Nat × List Char)
  | '3' :: c :: rest =>
    if c == '0' || c == '1' then some (30 + (c.toNat - 48), rest)
    else some (3, c :: rest)
  | '1' :: c :: rest =>
    if c.isDigit then some (10 + (c.toNat - 48), rest) else some (1, c :: rest)
  | '2' :: c :: rest =>
    if c.isDigit then some (20 + (c.toNat - 48), rest) else some (2, c :: rest)
  | '0' :: c :: rest =>
    if c.isDigit && c != '0' then some (c.toNat - 48, rest) else none
  | c :: rest =>
    if c.isDigit && c != '0' then some (c.toNat - 48, rest) else none
  | [] => none

/-- Model of `datetime.strptime(version, "%Y.%m.%d")`: the three directives
separated by literal dots, the whole string consumed, and the date
validated (year at least 1, day within the month). -/
def strptimeYMD (s : String) : Option (Nat × Nat × Nat) :=
  match parseYear4 s.data with
  | some (y, '.' :: r2) =>
    match parseMonth r2 with
    | some (m, '.' :: r4) =>
      match parseDay r4 with
      | some (d, r5) =>
        if r5.isEmpty && 1 ≤ y && d ≤ daysInMonth y m then some (y, m, d) else none
      | none => none
    | _ => none
  | _ => none

/-- Two-digit zero padding for `%d`. -/
def pad2 (n : Nat) : String := if n < 10 then "0" ++ toString n else toString n

/-- The per-version date formatting of lines 121-125: on a parse failure
the raw version id is used unchanged.  On success the format is
`"%B %d, %Y"` (the year printed without padding, as glibc does). -/
def formatDateOrRaw (version : String) : String :=
  match strptimeYMD version with
  | some (y, m, d) => monthName m ++ " " ++ pad2 d ++ ", " ++ toString y
  | none => version

/-- The fixed Latest block of `generate_archive_versions_html`
(lines 109-117). -/
def archiveLatestItem (pfx : String) : String :=
  "<div class=\"list-group-item list-group-item-action\">\n<div class=\"d-flex w-100 justify-content-between\">\n<h5 class=\"mb-1 anchored\">Latest Version</h5>\n<p><small class=\"text-muted\">Current</small></p>\n</div>\n<p><a href=\"/"
    ++ pfx ++ "/index.html\">View Latest Version</a></p>\n</div>"

/-- One per-version block of `generate_archive_versions_html`
(lines 120-135). -/
def archiveVersionItem (pfx version : String) : String :=
  "<div class=\"list-group-item list-group-item-action\">\n<div class=\"d-flex w-100 justify-content-between\">\n<h5 class=\"mb-1 anchored\">Version "
    ++ version ++ "</h5>\n<p><small class=\"text-muted\">"
    ++ formatDateOrRaw version ++ "</small></p>\n</div>\n<p><a href=\"/"
    ++ pfx ++ "/archive/" ++ version ++ "/index.html\">View Version "
    ++ version ++ "</a></p>\n</div>"

/-- Model of `generate_archive_versions_html` (lines 98-138): the empty
string for an empty version sequence, otherwise the Latest block followed
by one block per version, joined by blank lines. -/
def generate_archive_versions_html (versions : List String) (pfx : String) : String :=
  match versions with
  | [] => ""
  | _ =>
    String.intercalate "\n\n"
      (archiveLatestItem pfx :: versions.map (archiveVersionItem pfx))

/-! ## Dropdown Injector (`inject_dropdown_into_html`, lines 141-181) -/

/-- The CSS block `marker_css` of lines 149-155, prepended to the dropdown
fragment before injection. -/
def markerCssStr : String :=
  "\n    <style>\n    #version-dropdown \x7b\n      list-style: none;\n    \x7d\n    </style>\n    "

/-- The leading literal of the strip pattern
`<li id="version-dropdown" class="nav-item dropdown">.*?</ul>\s*</li>`. -/
def dropdownStripLit : List Char :=
  "<li id=\"version-dropdown\" class=\"nav-item dropdown\">".data

/-- The deterministic continuation `</ul>\s*</li>` of the strip pattern at
one position. -/
def dropTailAt (s : List Char) : Option (List Char) :=
  match matchLitCI "</ul>".data s with
  | none => none
  | some r => matchLitCI "</li>".data (r.drop (wsCount r))

/-- One pass of `re.sub(pattern, "", content)` for the strip pattern, with
fuel bounding the recursion (one unit per step; each step consumes at
least one character, so the length of the input is enough fuel):
at each position, if the leading literal matches and the non-greedy
`.*?</ul>\s*</li>` completes at the nearest possible position, the whole
match is dropped and scanning resumes after it; otherwise the character is
kept and scanning moves one position right. -/
def stripDropdownAux : Nat → List Char → List Char
  | 0, l => l
  | _ + 1, [] => []
  | fuel + 1, c :: cs =>
    match matchLitCI dropdownStripLit (c :: cs) with
    | some rest =>
      match scanSplit dropTailAt rest with
      | some (_, rest2) => stripDropdownAux fuel rest2
      | none => c :: stripDropdownAux fuel cs
    | none => c :: stripDropdownAux fuel cs

/-- The strip step of `inject_dropdown_into_html` (lines 162-168): remove
every previously injected dropdown block. -/
def stripDropdown (s : String) : String :=
  String.mk (stripDropdownAux s.data.length s.data)

/-- Model of `inject_dropdown_into_html` (lines 141-181) on the file
content: prepend the CSS block to the fragment, strip previously injected
dropdown blocks, then, if the stripped content contains `</nav>`, insert
the fragment before its first occurrence and return the new content;
otherwise the function raises and reports, writing nothing (`none`). -/
def inject_dropdown_into_html (content dropdown_html : String) : Option String :=
  let full := markerCssStr ++ "\n" ++ dropdown_html
  let stripped := stripDropdown content
  if occursIn stripped "</nav>" then
    some (replaceFirst stripped "</nav>" (full ++ "\n</nav>"))
  else none

/-! ## Archive List Injector (`inject_archive_versions_into_versions_html`,
lines 184-242) -/

/-- Generic matcher for the two marker comments: a literal, greedy `\s*`,
a case-insensitive literal, greedy `\s*`, a closing literal.  Both `\s*`
are deterministic here because each is followed by a literal starting with
a non-whitespace character.  Returns the length of the match. -/
def markerLenGen (litA litB litC : List Char) (s : List Char) : Option Nat :=
  match matchLit litA s with
  | none => none
  | some r1 =>
    match matchLitCI litB (r1.drop (wsCount r1)) with
    | none => none
    | some r2 =>
      match matchLit litC (r2.drop (wsCount r2)) with
      | some _ =>
        some (litA.length + wsCount r1 + litB.length + wsCount r2 + litC.length)
      | none => none

/-- Matcher for `<!--\s*AUTOMATIC_VERSIONS_START\s*-->` at one position. -/
def startMarkerLen : List Char → Option Nat :=
  markerLenGen "<!--".data "AUTOMATIC_VERSIONS_START".data "-->".data

/-- Matcher for `<!--\s*AUTOMATIC_VERSIONS_END\s*-->` at one position. -/
def endMarkerLen : List Char → Option Nat :=
  markerLenGen "<!--".data "AUTOMATIC_VERSIONS_END".data "-->".data

/-- Position matcher for the end marker, returning its text and the rest. -/
def endTryAt (s : List Char) : Option (List Char × List Char) :=
  match endMarkerLen s with
  | some n => some (s.take n, s.drop n)
  | none => none

/-- Position matcher for the whole marker pattern
`(<!--\s*AUTOMATIC_VERSIONS_START\s*-->)(.*?)(<!--\s*AUTOMATIC_VERSIONS_END\s*-->)`:
the start marker at this position, then the nearest end marker after it.
Returns the start-marker text, the text between the markers, the
end-marker text and the rest. -/
def startTryAt (s : List Char) :
    Option (List Char × List Char × List Char × List Char) :=
  match startMarkerLen s with
  | none => none
  | some n =>
    match scanSplit endTryAt (s.drop n) with
    | some (mid, g3, post) => some (s.take n, mid, g3, post)
    | none => none

/-- Position matcher for the literal `</div>` (case-insensitive),
returning its text and the rest. -/
def closeDivAt (s : List Char) : Option (List Char × List Char) :=
  match matchLitCI "</div>".data s with
  | some post => some (s.take 6, post)
  | none => none

/-- The deterministic tail `[^"]*"[^>]*>` of the opening-tag pattern after
the `list-group` token: the greedy runs are each followed by the single
character that terminates them.  Returns the consumed length. -/
def divAfterQuote (y : List Char) : Option Nat :=
  let cLen := runLen (fun c => c != '"') y
  match y.drop cLen with
  | '"' :: z =>
    let dLen := runLen (fun c => c != '>') z
    match z.drop dLen with
    | '>' :: _ => some (cLen + 1 + dLen + 1)
    | _ => none
  | _ => none

/-- One backtracking attempt of the attribute-value part
`[^"]*\blist-group\b[^"]*"` with `[^"]*` bound to length `b`, continued by
the rest of the opening tag and then the non-greedy `(.*?)(</div>)`.
`whole` is the input at the position of `<div`, `base` the length already
consumed up to the opening quote. -/
def divTryBFullAt (whole : List Char) (base : Nat) (afterQuote : List Char)
    (b : Nat) : Option (Nat × List Char × List Char × List Char) :=
  let prev := if b == 0 then '"' else (afterQuote.get? (b - 1)).getD '"'
  if wordChar prev then none
  else
    match matchLitCI "list-group".data (afterQuote.drop b) with
    | none => none
    | some r =>
      if wordChar (r.head?.getD '"') then none
      else
        match divAfterQuote r with
        | none => none
        | some k =>
          let n := base + b + 10 + k
          match scanSplit closeDivAt (whole.drop n) with
          | some (mid, g3, post) => some (n, mid, g3, post)
          | none => none

/-- Greedy backtracking over the length of the first `[^"]*` inside the
attribute value: the longest extent is tried first. -/
def divTryBFull (whole : List Char) (base : Nat) (afterQuote : List Char) :
    Nat → Option (Nat × List Char × List Char × List Char)
  | 0 => divTryBFullAt whole base afterQuote 0
  | b + 1 =>
    (divTryBFullAt whole base afterQuote (b + 1)).orElse
      (fun _ => divTryBFull whole base afterQuote b)

/-- One backtracking attempt of `[^>]*\bclass\s*=\s*"` with `[^>]*` bound
to length `a`, continued by the attribute-value part.  `s4` is the input
just after `<div`. -/
def divTryAFullAt (whole : List Char) (s4 : List Char) (a : Nat) :
    Option (Nat × List Char × List Char × List Char) :=
  let prev := if a == 0 then 'v' else (s4.get? (a - 1)).getD 'v'
  if wordChar prev then none
  else
    match matchLitCI "class".data (s4.drop a) with
    | none => none
    | some r1 =>
      let k1 := wsCount r1
      match r1.drop k1 with
      | '=' :: r2 =>
        let k2 := wsCount r2
        match r2.drop k2 with
        | '"' :: r3 =>
          divTryBFull whole (4 + a + 5 + k1 + 1 + k2 + 1) r3
            (runLen (fun c => c != '"') r3)
        | _ => none
      | _ => none

/-- Greedy backtracking over the length of `[^>]*` after `<div`: the
longest extent is tried first. -/
def divTryAFull (whole : List Char) (s4 : List Char) :
    Nat → Option (Nat × List Char × List Char × List Char)
  | 0 => divTryAFullAt whole s4 0
  | a + 1 =>
    (divTryAFullAt whole s4 (a + 1)).orElse (fun _ => divTryAFull whole s4 a)

/-- Position matcher for the fallback pattern
`(<div\b[^>]*\bclass\s*=\s*"[^"]*\blist-group\b[^"]*"[^>]*>)(.*?)(</div>)`
of lines 220-223: `<div` with a word boundary, the backtracking attribute
search, then the nearest `</div>`.  Returns the opening-tag text, the text
between it and the closing tag, the closing-tag text and the rest. -/
def divTryFullAt (s : List Char) :
    Option (List Char × List Char × List Char × List Char) :=
  match matchLitCI "<div".data s with
  | none => none
  | some s4 =>
    if wordChar (s4.head?.getD ' ') then none
    else
      match divTryAFull s s4 (runLen (fun c => c != '>') s4) with
      | some (n, mid, g3, post) => some (s.take n, mid, g3, post)
      | none => none

/-- Model of `inject_archive_versions_into_versions_html` (lines 184-242)
on the file content: first the marker strategy (replace everything
strictly between the first start/end marker pair with a newline plus the
fragment, keeping both markers); otherwise the fallback strategy (replace
the content between the first matching `list-group` opening tag and the
nearest following `</div>` with the fragment); otherwise report failure
and write nothing (`none`). -/
def inject_archive_versions_into_versions_html (content archive_html : String) :
    Option String :=
  match scanSplit startTryAt content.data with
  | some (pre, g1, _, g3, post) =>
    some (String.mk (pre ++ g1 ++ ('\n' :: archive_html.data) ++ g3 ++ post))
  | none =>
    match scanSplit divTryFullAt content.data with
    | some (pre, g1, _, g3, post) =>
      some (String.mk (pre ++ g1 ++ archive_html.data ++ g3 ++ post))
    | none => none

/-! ## Deprecation Banner Injector (`inject_deprecation_warning`,
lines 245-287) -/

/-- The warning block `warning_html` of lines 249-263. -/
def deprecationWarningHtml (pfx : String) : String :=
  "\n<div id=\"deprecation-warning\" class=\"callout callout-style-default callout-warning callout-titled\">\n<div class=\"callout-header d-flex align-content-center\">\n<div class=\"callout-icon-container\">\n<i class=\"callout-icon\"></i>\n</div>\n<div class=\"callout-title-container flex-fill\">\nWarning\n</div>\n</div>\n<div class=\"callout-body-container callout-body\">\n<p><font size=\"+2\">This is an archived version of the course - please consider using the <a href=\"/"
    ++ pfx
    ++ "/index.html\">latest version</a>.</font></p>\n</div>\n</div>\n"

/-- The idempotence marker tested on line 269. -/
def deprecationMarker : String := "id=\"deprecation-warning\""

/-- The anchor pattern of line 274 (a literal up to the capturing group). -/
def mainContentTag : String :=
  "<main class=\"content\" id=\"quarto-document-content\">"

/-- Model of `inject_deprecation_warning` (lines 245-287) on the file
content: if the marker is already present the function returns success
without rewriting; otherwise it substitutes the first occurrence of the
main-content tag (if any) by itself followed by the warning block and
reports success either way — when the anchor is absent the substitution
is a no-op.  The boolean is the reported success. -/
def inject_deprecation_warning (content pfx : String) : String × Bool :=
  if occursIn content deprecationMarker then (content, true)
  else
    (replaceFirst content mainContentTag
      (mainContentTag ++ deprecationWarningHtml pfx), true)

/-! ## Driver (`main`, lines 290-351): the per-file computations -/

/-- The dropdown fragment the driver builds for one file (lines 322-325):
the page context is always computed from the path and passed to the
renderer. -/
def mainDropdownFragmentForFile (versions : List String) (pfx file_path : String) :
    String :=
  generate_dropdown_html versions pfx
    (some (detect_current_version_from_path file_path))

/-- The archive-list update the driver applies to a versions-listing file
(lines 312 and 330-332): the fragment rendered once from the discovered
versions, then injected unconditionally. -/
def mainVersionsStep (content : String) (versions : List String) (pfx : String) :
    Option String :=
  inject_archive_versions_into_versions_html content
    (generate_archive_versions_html versions pfx)

/-! ## Specification-side definitions

The following definitions are written from the words of the specification
and of the claims, to be compared with the source translations above. -/

/-- Spec side: the exact pattern «4 digits, dot, 2 digits, dot, 2 digits»,
with no allowance for a trailing newline. -/
def exactVersionName (s : String) : Bool := versionShape s.data

/-- Spec side: concatenation of a list of fragments. -/
def concatStrs : List String → String
  | [] => ""
  | s :: ss => s ++ concatStrs ss

/-- Spec side: the head of the dropdown fragment, up to and including the
Latest entry, with the badge fragment spliced after the menu label. -/
def specDropdownOpen (pfx badge : String) : String :=
  "\n  <li id=\"version-dropdown\" class=\"nav-item dropdown\">\n    <a class=\"nav-link dropdown-toggle\" href=\"#\" id=\"nav-menu-versions\" role=\"link\" data-bs-toggle=\"dropdown\" aria-expanded=\"false\">\n      <span class=\"menu-text\">Version:</span>"
    ++ badge
    ++ "\n    </a>\n    <ul class=\"dropdown-menu\" aria-labelledby=\"nav-menu-versions\">\n      <li>\n        <a class=\"dropdown-item\" href=\"/"
    ++ pfx
    ++ "/index.html\">\n          <span class=\"dropdown-text\">Latest</span>\n        </a>\n      </li>"

/-- Spec side: one version entry of the dropdown. -/
def specVersionItem (pfx version : String) : String :=
  "\n      <li>\n        <a class=\"dropdown-item\" href=\"/"
    ++ pfx ++ "/archive/" ++ version
    ++ "/index.html\">\n          <span class=\"dropdown-text\">"
    ++ version ++ "</span>\n        </a>\n      </li>"

/-- Spec side: the divider entry shown before the more-versions entry. -/
def specDivider : String := "\n      <li><hr class=\"dropdown-divider\"></li>"

/-- Spec side: the more-versions entry. -/
def specMoreItem (pfx : String) : String :=
  "\n      <li>\n        <a class=\"dropdown-item\" href=\"/"
    ++ pfx
    ++ "/versions.html\">\n          <span class=\"dropdown-text\">More versions...</span>\n        </a>\n      </li>"

/-- Spec side: the closing tags of the dropdown fragment. -/
def specDropdownClose : String := "\n    </ul>\n  </li>"

/-- Spec side: the Latest link of the dropdown. -/
def specLatestLink (pfx : String) : String := "href=\"/" ++ pfx ++ "/index.html\""

/-- Spec side: the link of one archived version in the dropdown. -/
def specArchiveLink (pfx version : String) : String :=
  "href=\"/" ++ pfx ++ "/archive/" ++ version ++ "/index.html\""

/-- Spec side: the link of the more-versions entry. -/
def specMoreLink (pfx : String) : String := "href=\"/" ++ pfx ++ "/versions.html\""

/-- Spec side: a string that is exactly one start-marker comment. -/
def isStartMarkerText (s : String) : Bool := startMarkerLen s.data == some s.data.length

/-- Spec side: a string that is exactly one end-marker comment. -/
def isEndMarkerText (s : String) : Bool := endMarkerLen s.data == some s.data.length

/-- Spec side: the canonical opening tag of the fallback list container. -/
def listGroupTag : String := "<div class=\"list-group\">"

/-- Spec side: a strict position matcher for the version detector as the
specification words it — an archive segment followed by a version segment,
that is, the version followed by a slash or by the very end of the path. -/
def tryArchiveStrictAt (s : List Char) : Option String :=
  match matchLit "/archive/".data s with
  | none => none
  | some rest =>
    if versionShape (rest.take 10)
        && (rest.drop 10 == [] || (rest.drop 10).head? == some '/') then
      some (String.mk (rest.take 10))
    else none

/-- Spec side: the declarative statement that a path contains an archive
segment immediately followed by a version-id segment. -/
def StrictArchPath (p : String) : Prop :=
  ∃ a v b : String, p = a ++ "/archive/" ++ v ++ b ∧ exactVersionName v = true ∧
    (b = "" ∨ ∃ b2 : String, b = "/" ++ b2)

/-- Spec side: the declarative statement matched by the version-detector
regex of the source, which also accepts the position just before one final
trailing newline (the Python `$`). -/
def PyArchPath (p : String) : Prop :=
  ∃ a v b : String, p = a ++ "/archive/" ++ v ++ b ∧ exactVersionName v = true ∧
    (b = "" ∨ b = "\n" ∨ ∃ b2 : String, b = "/" ++ b2)

/-- Spec side: the declarative statement that a start-marker comment
occurs somewhere before an end-marker comment. -/
def MarkerPairPresent (content : String) : Prop :=
  ∃ a s m e b : String, content = a ++ s ++ m ++ e ++ b ∧
    isStartMarkerText s = true ∧ isEndMarkerText e = true

/-! ## Helper lemmas: literals, case-insensitive equality, scanning -/

theorem strData_mk (l : List Char) : (String.mk l).data = l := rfl

theorem strMk_append (a b : List Char) :
    String.mk (a ++ b) = String.mk a ++ String.mk b := rfl

theorem strMk_data (s : String) : String.mk s.data = s := rfl

theorem strLength_data (s : String) : s.length = s.data.length := rfl

theorem matchLit_some_iff :
    ∀ (pat l r : List Char), matchLit pat l = some r ↔ l = pat ++ r
  | [], l, r => by simp [matchLit]
  | p :: ps, [], r => by simp [matchLit]
  | p :: ps, c :: cs, r => by
    simp only [matchLit, List.cons_append, List.cons.injEq]
    by_cases h : c == p
    · have hcp : c = p := by exact beq_iff_eq.mp h
      simp [h, hcp, matchLit_some_iff ps cs r]
    · have hcp : ¬ c = p := by
        intro he
        exact h (by simp [he])
      simp [h, hcp]

theorem ciEqList_refl : ∀ l : List Char, ciEqList l l = true
  | [] => rfl
  | c :: cs => by simp [ciEqList, ciEq, ciEqList_refl cs]

theorem ciEqList_length :
    ∀ u v : List Char, ciEqList u v = true → u.length = v.length
  | [], [], _ => rfl
  | [], _ :: _, h => by simp [ciEqList] at h
  | _ :: _, [], h => by simp [ciEqList] at h
  | x :: xs, y :: ys, h => by
    simp only [ciEqList, Bool.and_eq_true] at h
    simp [ciEqList_length xs ys h.2]

theorem matchLitCI_some :
    ∀ (pat l r : List Char), matchLitCI pat l = some r →
      ∃ u, l = u ++ r ∧ ciEqList u pat = true
  | [], l, r, h => by
    refine ⟨[], ?_, rfl⟩
    simpa [matchLitCI] using h
  | p :: ps, [], r, h => by simp [matchLitCI] at h
  | p :: ps, c :: cs, r, h => by
    simp only [matchLitCI] at h
    by_cases hce : ciEq c p
    · rw [if_pos hce] at h
      obtain ⟨u, hu, hci⟩ := matchLitCI_some ps cs r h
      exact ⟨c :: u, by simp [hu], by simp [ciEqList, hce, hci]⟩
    · rw [if_neg hce] at h
      exact absurd h (by simp)

theorem matchLitCI_of_ciEqList :
    ∀ (pat u r : List Char), ciEqList u pat = true →
      matchLitCI pat (u ++ r) = some r
  | [], [], r, _ => rfl
  | [], _ :: _, r, h => by simp [ciEqList] at h
  | _ :: _, [], r, h => by simp [ciEqList] at h
  | p :: ps, c :: cs, r, h => by
    simp only [ciEqList, Bool.and_eq_true] at h
    simp only [List.cons_append, matchLitCI, if_pos h.1]
    exact matchLitCI_of_ciEqList ps cs r h.2

theorem ciEqList_append_split :
    ∀ (x y z : List Char), ciEqList (x ++ y) z = true →
      ciEqList x (z.take x.length) = true ∧ ciEqList y (z.drop x.length) = true
  | [], y, z, h => by
    constructor
    · simp [ciEqList]
    · simpa using h
  | c :: cs, y, [], h => by simp [ciEqList] at h
  | c :: cs, y, d :: ds, h => by
    simp only [List.cons_append, ciEqList, Bool.and_eq_true] at h
    have ih := ciEqList_append_split cs y ds h.2
    simp only [List.length_cons, List.take_succ_cons, List.drop_succ_cons]
    exact ⟨by simp [ciEqList, h.1, ih.1], ih.2⟩

theorem scanSplit_some {α : Type} (f : List Char → Option α) :
    ∀ (l pre : List Char) (x : α), scanSplit f l = some (pre, x) →
      ∃ suf, l = pre ++ suf ∧ f suf = some x
  | [], pre, x, h => by
    unfold scanSplit at h
    split at h
    · next y hy =>
      obtain ⟨h1, h2⟩ : ([] : List Char) = pre ∧ y = x := by
        simpa using h
      exact ⟨[], by simp [h1.symm], by rw [hy, h2]⟩
    · exact absurd h (by simp)
  | c :: cs, pre, x, h => by
    unfold scanSplit at h
    split at h
    · next y hy =>
      obtain ⟨h1, h2⟩ : ([] : List Char) = pre ∧ y = x := by
        simpa using h
      exact ⟨c :: cs, by simp [h1.symm], by rw [hy, h2]⟩
    · next hnone =>
      split at h
      · next pr x2 hrec =>
        obtain ⟨h1, h2⟩ : c :: pr = pre ∧ x2 = x := by
          simpa using h
        obtain ⟨suf, hsuf, hf⟩ := scanSplit_some f cs pr x2 hrec
        exact ⟨suf, by rw [← h1, hsuf]; rfl, by rw [hf, h2]⟩
      · exact absurd h (by simp)

theorem scanSplit_none {α : Type} (f : List Char → Option α) :
    ∀ l, scanSplit f l = none → ∀ pre suf, l = pre ++ suf → f suf = none
  | [], h, pre, suf, hps => by
    obtain ⟨hp, hs⟩ := List.append_eq_nil.mp hps.symm
    subst hs
    unfold scanSplit at h
    split at h
    · exact absurd h (by simp)
    · assumption
  | c :: cs, h, pre, suf, hps => by
    unfold scanSplit at h
    split at h
    · exact absurd h (by simp)
    · next hnone =>
      split at h
      · exact absurd h (by simp)
      · next hrec =>
        cases pre with
        | nil =>
          have hsuf : suf = c :: cs := by simpa using hps.symm
          rw [hsuf]
          exact hnone
        | cons p pr =>
          have : c = p ∧ cs = pr ++ suf := by
            simpa using hps
          exact scanSplit_none f cs hrec pr suf this.2

theorem scanSplit_isSome_of {α : Type} (f : List Char → Option α)
    (pre suf : List Char) (x : α) (hf : f suf = some x) :
    (scanSplit f (pre ++ suf)).isSome = true := by
  cases hsc : scanSplit f (pre ++ suf) with
  | some => simp
  | none => exact absurd (scanSplit_none f _ hsc pre suf rfl) (by simp [hf])

theorem scanSplit_exact {α : Type} (f : List Char → Option α) :
    ∀ (pre suf : List Char) (x : α), f suf = some x →
      (∀ p2 s2, pre ++ suf = p2 ++ s2 → p2.length < pre.length → f s2 = none) →
      scanSplit f (pre ++ suf) = some (pre, x)
  | [], suf, x, hf, _ => by
    rw [List.nil_append]
    cases suf with
    | nil => simp only [scanSplit, hf]
    | cons c cs => simp only [scanSplit, hf]
  | p :: pre1, suf, x, hf, hmin => by
    have hfst : f (p :: (pre1 ++ suf)) = none := by
      have := hmin [] (p :: (pre1 ++ suf)) (by simp) (by simp)
      simpa using this
    have hmin2 : ∀ p2 s2, pre1 ++ suf = p2 ++ s2 → p2.length < pre1.length → f s2 = none := by
      intro p2 s2 he hlt
      exact hmin (p :: p2) s2 (by simp [he]) (by simpa using hlt)
    have ih := scanSplit_exact f pre1 suf x hf hmin2
    rw [List.cons_append]
    simp only [scanSplit, hfst, ih]

theorem scanSplit_minimal {α : Type} (f : List Char → Option α) :
    ∀ (l pre : List Char) (x : α), scanSplit f l = some (pre, x) →
      ∀ p2 s2, l = p2 ++ s2 → p2.length < pre.length → f s2 = none
  | [], pre, x, h, p2, s2, hps, hlt => by
    unfold scanSplit at h
    split at h
    · next y hy =>
      obtain ⟨h1, _⟩ : ([] : List Char) = pre ∧ y = x := by simpa using h
      rw [← h1] at hlt
      exact absurd hlt (by simp)
    · exact absurd h (by simp)
  | c :: cs, pre, x, h, p2, s2, hps, hlt => by
    unfold scanSplit at h
    split at h
    · next y hy =>
      obtain ⟨h1, _⟩ : ([] : List Char) = pre ∧ y = x := by simpa using h
      rw [← h1] at hlt
      exact absurd hlt (by simp)
    · next hnone =>
      split at h
      · next pr x2 hrec =>
        obtain ⟨h1, h2⟩ : c :: pr = pre ∧ x2 = x := by simpa using h
        cases p2 with
        | nil =>
          have hsuf : s2 = c :: cs := by simpa using hps.symm
          rw [hsuf]
          exact hnone
        | cons q qr =>
          obtain ⟨hq, hqs⟩ : c = q ∧ cs = qr ++ s2 := by simpa using hps
          have hlt2 : qr.length < pr.length := by
            rw [← h1] at hlt
            simpa using hlt
          exact scanSplit_minimal f cs pr x2 hrec qr s2 hqs hlt2
      · exact absurd h (by simp)

theorem runLen_le (p : Char → Bool) : ∀ l : List Char, runLen p l ≤ l.length
  | [] => le_refl 0
  | c :: cs => by
    simp only [runLen]
    split
    · simpa using runLen_le p cs
    · simp

theorem runLen_append_stop (p : Char → Bool) :
    ∀ (w : List Char) (x : Char) (t : List Char),
      (∀ c ∈ w, p c = true) → p x = false → runLen p (w ++ x :: t) = w.length
  | [], x, t, _, hx => by simp [runLen, hx]
  | c :: cs, x, t, hw, hx => by
    have hc : p c = true := hw c (by simp)
    simp only [List.cons_append, runLen, hc, if_true, List.append_eq]
    rw [runLen_append_stop p cs x t (fun d hd => hw d (by simp [hd])) hx]
    simp

/-! ## Occurrence and first-replacement characterizations at string level -/

theorem occursIn_iff (s pat : String) :
    occursIn s pat = true ↔ ∃ u v : String, s = u ++ pat ++ v := by
  constructor
  · intro h
    unfold occursIn at h
    obtain ⟨⟨pre, rest⟩, hsc⟩ := Option.isSome_iff_exists.mp h
    obtain ⟨suf, hsuf, hf⟩ := scanSplit_some _ _ _ _ hsc
    have hsufeq : suf = pat.data ++ rest := (matchLit_some_iff _ _ _).mp hf
    refine ⟨String.mk pre, String.mk rest, ?_⟩
    apply String.ext
    simp [String.data_append, strData_mk]
    rw [hsuf, hsufeq]
  · intro ⟨u, v, huv⟩
    unfold occursIn
    have hdata : s.data = u.data ++ (pat.data ++ v.data) := by
      rw [huv]
      simp [String.data_append]
    rw [hdata]
    exact scanSplit_isSome_of _ u.data (pat.data ++ v.data) v.data
      ((matchLit_some_iff _ _ _).mpr rfl)

theorem occursIn_append_right (a b pat : String) (h : occursIn b pat = true) :
    occursIn (a ++ b) pat = true := by
  obtain ⟨u, v, huv⟩ := (occursIn_iff b pat).mp h
  exact (occursIn_iff (a ++ b) pat).mpr ⟨a ++ u, v, by rw [huv]; simp [String.append_assoc]⟩

theorem occursIn_append_left (a b pat : String) (h : occursIn a pat = true) :
    occursIn (a ++ b) pat = true := by
  obtain ⟨u, v, huv⟩ := (occursIn_iff a pat).mp h
  exact (occursIn_iff (a ++ b) pat).mpr ⟨u, v ++ b, by rw [huv]; simp [String.append_assoc]⟩

theorem replaceFirst_of_occurs (s old new : String) (hne : old.data ≠ [])
    (h : occursIn s old = true) :
    ∃ u v : String, s = u ++ old ++ v ∧ occursIn u old = false ∧
      replaceFirst s old new = u ++ new ++ v := by
  unfold occursIn at h
  obtain ⟨⟨pre, rest⟩, hsc⟩ := Option.isSome_iff_exists.mp h
  obtain ⟨suf, hsuf, hf⟩ := scanSplit_some _ _ _ _ hsc
  have hsufeq : suf = old.data ++ rest := (matchLit_some_iff _ _ _).mp hf
  refine ⟨String.mk pre, String.mk rest, ?_, ?_, ?_⟩
  · apply String.ext
    simp [String.data_append, strData_mk]
    rw [hsuf, hsufeq]
  · cases hocc : occursIn (String.mk pre) old with
    | false => rfl
    | true =>
      obtain ⟨u2, v2, hu2⟩ := (occursIn_iff _ _).mp hocc
      have hpre : pre = u2.data ++ (old.data ++ v2.data) := by
        have := congrArg String.data hu2
        simpa [String.data_append, strData_mk] using this
      have hsplit : s.data = u2.data ++ (old.data ++ (v2.data ++ suf)) := by
        rw [hsuf, hpre]
        simp
      have hlen : u2.data.length < pre.length := by
        rw [hpre]
        have : 0 < old.data.length := List.length_pos.mpr hne
        simp only [List.length_append]
        omega
      have := scanSplit_minimal _ _ _ _ hsc u2.data (old.data ++ (v2.data ++ suf))
        hsplit hlen
      rw [(matchLit_some_iff old.data _ (v2.data ++ suf)).mpr rfl] at this
      exact absurd this (by simp)
  · unfold replaceFirst
    rw [hsc]
    apply String.ext
    simp [String.data_append, strData_mk]

theorem replaceFirst_of_not (s old new : String) (h : occursIn s old = false) :
    replaceFirst s old new = s := by
  unfold replaceFirst
  cases hsc : scanSplit (fun t => matchLit old.data t) s.data with
  | some pr =>
    unfold occursIn at h
    rw [hsc] at h
    simp at h
  | none => rfl

theorem versionShape_length (l : List Char) (h : versionShape l = true) :
    l.length = 10 := by
  unfold versionShape at h
  split at h
  · next => simp_all
  · exact absurd h (by simp)

/-! ## Structure of the rendered dropdown fragment -/

theorem foldl_items (pfx : String) :
    ∀ (l : List String) (s : String),
      List.foldl (fun acc version => acc
        ++ "\n      <li>\n        <a class=\"dropdown-item\" href=\"/"
        ++ pfx ++ "/archive/" ++ version
        ++ "/index.html\">\n          <span class=\"dropdown-text\">"
        ++ version ++ "</span>\n        </a>\n      </li>") s l
      = s ++ concatStrs (l.map (specVersionItem pfx))
  | [], s => by simp [concatStrs]
  | v :: vs, s => by
    simp only [List.foldl_cons, List.map_cons, concatStrs]
    rw [foldl_items pfx vs]
    simp [specVersionItem, String.append_assoc]

theorem gen_dropdown_split (versions : List String) (pfx : String) (cv : Option String) :
    generate_dropdown_html versions pfx cv =
      specDropdownOpen pfx (badgeHtml cv)
        ++ concatStrs ((versions.take 3).map (specVersionItem pfx))
        ++ (if 3 < versions.length then specDivider ++ specMoreItem pfx else "")
        ++ specDropdownClose := by
  cases versions with
  | nil =>
    simp [generate_dropdown_html, specDropdownOpen, specDropdownClose, concatStrs,
      String.append_assoc]
  | cons v vs =>
    have hlit :
        ("\n      <li><hr class=\"dropdown-divider\"></li>\n      <li>\n        <a class=\"dropdown-item\" href=\"/" : String)
          = "\n      <li><hr class=\"dropdown-divider\"></li>"
            ++ "\n      <li>\n        <a class=\"dropdown-item\" href=\"/" := rfl
    by_cases h3 : 3 < (v :: vs).length
    · simp only [generate_dropdown_html, decide_eq_true_eq, h3, if_true]
      rw [foldl_items pfx]
      simp only [specDropdownOpen, specDivider, specMoreItem, specDropdownClose, h3,
        if_true, String.append_assoc]
      rw [hlit, String.append_assoc]
    · simp only [generate_dropdown_html, decide_eq_true_eq, h3, if_false]
      rw [foldl_items pfx]
      simp [specDropdownOpen, specDropdownClose, h3, String.append_assoc]

theorem specOpen_has_latest_link (pfx badge : String) :
    occursIn (specDropdownOpen pfx badge) (specLatestLink pfx) = true := by
  apply (occursIn_iff _ _).mpr
  refine ⟨"\n  <li id=\"version-dropdown\" class=\"nav-item dropdown\">\n    <a class=\"nav-link dropdown-toggle\" href=\"#\" id=\"nav-menu-versions\" role=\"link\" data-bs-toggle=\"dropdown\" aria-expanded=\"false\">\n      <span class=\"menu-text\">Version:</span>"
    ++ badge
    ++ "\n    </a>\n    <ul class=\"dropdown-menu\" aria-labelledby=\"nav-menu-versions\">\n      <li>\n        <a class=\"dropdown-item\" ",
    ">\n          <span class=\"dropdown-text\">Latest</span>\n        </a>\n      </li>", ?_⟩
  unfold specDropdownOpen specLatestLink
  rw [show ("\n    </a>\n    <ul class=\"dropdown-menu\" aria-labelledby=\"nav-menu-versions\">\n      <li>\n        <a class=\"dropdown-item\" href=\"/" : String)
      = "\n    </a>\n    <ul class=\"dropdown-menu\" aria-labelledby=\"nav-menu-versions\">\n      <li>\n        <a class=\"dropdown-item\" " ++ "href=\"/" from rfl]
  rw [show ("/index.html\">\n          <span class=\"dropdown-text\">Latest</span>\n        </a>\n      </li>" : String)
      = "/index.html\"" ++ ">\n          <span class=\"dropdown-text\">Latest</span>\n        </a>\n      </li>" from rfl]
  simp only [String.append_assoc]

theorem specVersionItem_has_link (pfx v : String) :
    occursIn (specVersionItem pfx v) (specArchiveLink pfx v) = true := by
  apply (occursIn_iff _ _).mpr
  refine ⟨"\n      <li>\n        <a class=\"dropdown-item\" ",
    ">\n          <span class=\"dropdown-text\">" ++ v ++ "</span>\n        </a>\n      </li>", ?_⟩
  unfold specVersionItem specArchiveLink
  rw [show ("\n      <li>\n        <a class=\"dropdown-item\" href=\"/" : String)
      = "\n      <li>\n        <a class=\"dropdown-item\" " ++ "href=\"/" from rfl]
  rw [show ("/index.html\">\n          <span class=\"dropdown-text\">" : String)
      = "/index.html\"" ++ ">\n          <span class=\"dropdown-text\">" from rfl]
  simp only [String.append_assoc]

theorem specMoreItem_has_link (pfx : String) :
    occursIn (specMoreItem pfx) (specMoreLink pfx) = true := by
  apply (occursIn_iff _ _).mpr
  refine ⟨"\n      <li>\n        <a class=\"dropdown-item\" ",
    ">\n          <span class=\"dropdown-text\">More versions...</span>\n        </a>\n      </li>", ?_⟩
  unfold specMoreItem specMoreLink
  rw [show ("\n      <li>\n        <a class=\"dropdown-item\" href=\"/" : String)
      = "\n      <li>\n        <a class=\"dropdown-item\" " ++ "href=\"/" from rfl]
  rw [show ("/versions.html\">\n          <span class=\"dropdown-text\">More versions...</span>\n        </a>\n      </li>" : String)
      = "/versions.html\"" ++ ">\n          <span class=\"dropdown-text\">More versions...</span>\n        </a>\n      </li>" from rfl]
  simp only [String.append_assoc]

/-! ## Claim C2: Version Discovery -/

/-- C2 counterexample: a directory named `2024.01.01` followed by one
newline character does not match the exact pattern «4 digits, dot,
2 digits, dot, 2 digits», yet Version Discovery returns it, because the
Python `$` anchor also matches just before one trailing newline.  So the
returned names are not exactly the exact-pattern matches. -/
theorem C2_counterexample :
    get_available_versions (some [⟨"2024.01.01\n", true⟩]) = ["2024.01.01\n"]
      ∧ exactVersionName "2024.01.01\n" = false := by
  constructor
  · decide
  · decide

/-- C2 (amended): for any state of the archive root, Version Discovery
returns exactly the names of immediate subdirectory entries whose name
matches the date pattern — or such a name followed by one trailing
newline, an artifact of the regex `$` anchor — excluding non-matching
names and non-directory entries, sorted in descending lexicographic
order; when the archive root does not exist it returns the empty
sequence rather than an error. -/
theorem C2_version_discovery (entries : List DirEntry) :
    get_available_versions none = []
    ∧ (get_available_versions (some entries)).Perm
        ((entries.filter (fun it => it.isDir && pyVersionMatch it.name)).map DirEntry.name)
    ∧ List.Pairwise versionDescOrder (get_available_versions (some entries)) :=
  ⟨rfl, List.perm_insertionSort _ _, List.sorted_insertionSort _ _⟩

/-! ## Claim C3: Dropdown Renderer output structure -/

/-- C3: for every version sequence, prefix and page context, the rendered
dropdown is the header (with the Latest entry linking to
`/{prefix}/index.html`) followed by exactly `min 3 n` version entries —
the first entries of the sequence in order, each linking to
`/{prefix}/archive/{version}/index.html` — followed by a divider plus a
more-versions entry linking to `/{prefix}/versions.html` exactly when the
sequence has more than three versions, followed by the closing tags. -/
theorem C3_dropdown_structure (versions : List String) (pfx : String)
    (cv : Option String) :
    generate_dropdown_html versions pfx cv =
      specDropdownOpen pfx (badgeHtml cv)
        ++ concatStrs ((versions.take 3).map (specVersionItem pfx))
        ++ (if 3 < versions.length then specDivider ++ specMoreItem pfx else "")
        ++ specDropdownClose
    ∧ (versions.take 3).length = min 3 versions.length
    ∧ occursIn (specDropdownOpen pfx (badgeHtml cv)) (specLatestLink pfx) = true
    ∧ ((versions.take 3).all
        fun v => occursIn (specVersionItem pfx v) (specArchiveLink pfx v)) = true
    ∧ occursIn (specDivider ++ specMoreItem pfx) "<hr class=\"dropdown-divider\">" = true
    ∧ occursIn (specMoreItem pfx) (specMoreLink pfx) = true :=
  ⟨gen_dropdown_split versions pfx cv,
   List.length_take 3 versions,
   specOpen_has_latest_link pfx (badgeHtml cv),
   List.all_eq_true.mpr (fun v _ => specVersionItem_has_link pfx v),
   occursIn_append_left _ _ _ (by decide),
   specMoreItem_has_link pfx⟩

/-! ## Claim C10: the driver always renders a current-version badge -/

theorem tryArchiveAt_length (s : List Char) (v : String)
    (h : tryArchiveAt s = some v) : v.length = 10 := by
  unfold tryArchiveAt at h
  split at h
  · exact absurd h (by simp)
  · next rest hrest =>
    split at h
    · next hcond =>
      rw [Bool.and_eq_true] at hcond
      have h2 : String.mk (rest.take 10) = v := by simpa using h
      rw [← h2]
      exact versionShape_length _ hcond.1
    · exact absurd h (by simp)

theorem detect_ne_nil (p : String) : detect_current_version_from_path p ≠ "" := by
  unfold detect_current_version_from_path
  cases hsc : scanSplit tryArchiveAt p.data with
  | none => decide
  | some pr =>
    obtain ⟨pre, v⟩ := pr
    obtain ⟨suf, hsuf, hf⟩ := scanSplit_some _ _ _ _ hsc
    have h10 := tryArchiveAt_length suf v hf
    intro he
    rw [show (match some (pre, v) with
      | some (_, v) => v
      | none => "Latest") = v from rfl] at he
    rw [he] at h10
    simp [strLength_data] at h10

theorem badgeHtml_some_eq (cv : String) (h : cv ≠ "") :
    badgeHtml (some cv)
      = " <span class=\"version-badge\" aria-hidden=\"true\">" ++ cv ++ "</span>" := by
  simp only [badgeHtml]
  rw [if_neg h]

theorem badgeHtml_has_marker (cv : String) (h : cv ≠ "") :
    occursIn (badgeHtml (some cv)) "class=\"version-badge\"" = true := by
  rw [badgeHtml_some_eq cv h]
  exact occursIn_append_left _ _ _ (occursIn_append_left _ _ _ (by decide))

theorem specDropdownOpen_has (pfx badge pat : String)
    (h : occursIn badge pat = true) :
    occursIn (specDropdownOpen pfx badge) pat = true := by
  unfold specDropdownOpen
  exact occursIn_append_left _ _ _ (occursIn_append_left _ _ _
    (occursIn_append_left _ _ _ (occursIn_append_right _ _ _ h)))

theorem gen_has_badge_marker (versions : List String) (pfx : String) (cv : String)
    (h : cv ≠ "") :
    occursIn (generate_dropdown_html versions pfx (some cv)) "class=\"version-badge\"" = true := by
  rw [gen_dropdown_split versions pfx (some cv)]
  exact occursIn_append_left _ _ _ (occursIn_append_left _ _ _
    (occursIn_append_left _ _ _ (specDropdownOpen_has pfx _ _ (badgeHtml_has_marker cv h))))

theorem gen_badge_ne_none (versions : List String) (pfx : String) (cv : String)
    (h : cv ≠ "") :
    generate_dropdown_html versions pfx (some cv) ≠ generate_dropdown_html versions pfx none := by
  intro he
  rw [gen_dropdown_split versions pfx (some cv), gen_dropdown_split versions pfx none] at he
  have hlen := congrArg String.length he
  rw [show badgeHtml none = "" from rfl, badgeHtml_some_eq cv h] at hlen
  have hL0 : ("" : String).length = 0 := rfl
  have hL1 : 0 < (" <span class=\"version-badge\" aria-hidden=\"true\">" : String).length := by
    decide
  simp only [String.length_append, specDropdownOpen] at hlen
  rw [hL0] at hlen
  omega

/-- C10: in every full driver run, the dropdown fragment injected into a
file always carries a current-version badge: the driver computes the page
context from the path and passes it to the renderer, the detected context
is never the empty string (it is `Latest` or a ten-character version id),
so the rendered fragment contains the badge markup and is never equal to
the badge-less rendering form. -/
theorem C10_driver_badge (versions : List String) (pfx file_path : String) :
    occursIn (mainDropdownFragmentForFile versions pfx file_path)
      "class=\"version-badge\"" = true
    ∧ mainDropdownFragmentForFile versions pfx file_path
        ≠ generate_dropdown_html versions pfx none := by
  have hne := detect_ne_nil file_path
  exact ⟨gen_has_badge_marker versions pfx _ hne, gen_badge_ne_none versions pfx _ hne⟩

/-! ## Claim C6: Version Detector -/

theorem tryArchiveAt_sound (suf : List Char) (v : String)
    (h : tryArchiveAt suf = some v) :
    ∃ b : List Char, suf = "/archive/".data ++ (v.data ++ b)
      ∧ exactVersionName v = true
      ∧ (b = [] ∨ b = ['\n'] ∨ ∃ b2, b = '/' :: b2) := by
  unfold tryArchiveAt at h
  split at h
  · exact absurd h (by simp)
  · next rest hrest =>
    split at h
    · next hcond =>
      rw [Bool.and_eq_true] at hcond
      have hv : String.mk (rest.take 10) = v := by simpa using h
      have hvdata : v.data = rest.take 10 := by rw [← hv]
      refine ⟨rest.drop 10, ?_, ?_, ?_⟩
      · rw [(matchLit_some_iff _ _ _).mp hrest, hvdata, List.take_append_drop]
      · unfold exactVersionName
        rw [hvdata]
        exact hcond.1
      · have hat := hcond.2
        unfold archTailOk at hat
        split at hat
        · exact Or.inl (by assumption)
        · next heq => exact Or.inr (Or.inr ⟨_, heq⟩)
        · next heq => exact Or.inr (Or.inl (by assumption))
        · exact absurd hat (by simp)
    · exact absurd h (by simp)

theorem archTailOk_of_shape (b : String)
    (hbs : b = "" ∨ b = "\n" ∨ ∃ b2 : String, b = "/" ++ b2) :
    archTailOk b.data = true := by
  rcases hbs with h | h | ⟨b2, h⟩ <;> subst h
  · rfl
  · rfl
  · rfl

theorem pyArch_scan (p : String) (hp : PyArchPath p) :
    (scanSplit tryArchiveAt p.data).isSome = true := by
  obtain ⟨a, v, b, hpeq, hexact, hbs⟩ := hp
  have h10 : v.data.length = 10 :=
    versionShape_length _ hexact
  have htry : tryArchiveAt ("/archive/".data ++ (v.data ++ b.data)) = some v := by
    have hml : matchLit "/archive/".data ("/archive/".data ++ (v.data ++ b.data))
        = some (v.data ++ b.data) := (matchLit_some_iff _ _ _).mpr rfl
    unfold tryArchiveAt
    simp only [hml]
    have htake : List.take 10 (v.data ++ b.data) = v.data := by
      rw [← h10]
      exact List.take_left v.data b.data
    have hdrop : List.drop 10 (v.data ++ b.data) = b.data := by
      rw [← h10]
      exact List.drop_left v.data b.data
    have hvs : versionShape v.data = true := hexact
    rw [htake, hdrop, hvs, archTailOk_of_shape b hbs]
    simp [strMk_data]
  have hdata : p.data = a.data ++ ("/archive/".data ++ (v.data ++ b.data)) := by
    rw [hpeq]
    simp [String.data_append]
  rw [hdata]
  exact scanSplit_isSome_of _ a.data _ v htry

theorem detect_pyArch (p : String) (hp : PyArchPath p) :
    ∃ a b : String, p = a ++ "/archive/" ++ detect_current_version_from_path p ++ b
      ∧ exactVersionName (detect_current_version_from_path p) = true
      ∧ (b = "" ∨ b = "\n" ∨ ∃ b2 : String, b = "/" ++ b2) := by
  obtain ⟨⟨pre, v⟩, hsc⟩ := Option.isSome_iff_exists.mp (pyArch_scan p hp)
  have hd : detect_current_version_from_path p = v := by
    unfold detect_current_version_from_path
    rw [hsc]
  obtain ⟨suf, hpd, hf⟩ := scanSplit_some _ _ _ _ hsc
  obtain ⟨bl, hsuf, hex, hbshape⟩ := tryArchiveAt_sound suf v hf
  refine ⟨String.mk pre, String.mk bl, ?_, by rw [hd]; exact hex, ?_⟩
  · apply String.ext
    rw [hd]
    simp only [String.data_append, strData_mk]
    rw [hpd, hsuf]
    simp
  · rcases hbshape with h | h | ⟨b2, h⟩ <;> subst h
    · exact Or.inl rfl
    · exact Or.inr (Or.inl rfl)
    · exact Or.inr (Or.inr ⟨String.mk b2, rfl⟩)

theorem detect_ne_latest_of_pyArch (p : String) (hp : PyArchPath p) :
    detect_current_version_from_path p ≠ "Latest" := by
  obtain ⟨a, b, _, hex, _⟩ := detect_pyArch p hp
  intro he
  rw [he] at hex
  exact absurd hex (by decide)

theorem pyArch_of_scan (p : String)
    (h : (scanSplit tryArchiveAt p.data).isSome = true) : PyArchPath p := by
  obtain ⟨⟨pre, v⟩, hsc⟩ := Option.isSome_iff_exists.mp h
  obtain ⟨suf, hpd, hf⟩ := scanSplit_some _ _ _ _ hsc
  obtain ⟨bl, hsuf, hex, hbshape⟩ := tryArchiveAt_sound suf v hf
  refine ⟨String.mk pre, v, String.mk bl, ?_, hex, ?_⟩
  · apply String.ext
    simp only [String.data_append, strData_mk]
    rw [hpd, hsuf]
    simp
  · rcases hbshape with h2 | h2 | ⟨b2, h2⟩ <;> subst h2
    · exact Or.inl rfl
    · exact Or.inr (Or.inl rfl)
    · exact Or.inr (Or.inr ⟨String.mk b2, rfl⟩)

theorem detect_latest_iff (p : String) :
    detect_current_version_from_path p = "Latest" ↔ ¬ PyArchPath p := by
  constructor
  · intro he hp
    exact detect_ne_latest_of_pyArch p hp he
  · intro hnp
    unfold detect_current_version_from_path
    cases hsc : scanSplit tryArchiveAt p.data with
    | none => rfl
    | some pr =>
      exact absurd (pyArch_of_scan p (by rw [hsc]; rfl)) hnp

/-- C6 (amended): the Version Detector returns, for a path containing an
archive segment followed by the version pattern terminated by a slash, the
end of the path, or — an artifact of the Python `$` anchor — one final
trailing newline, a version id occurring at such a position; for every
other path it returns the sentinel `Latest`.  A path whose archive segment
match is only terminated by the trailing newline is not a strict archive
segment in the sense of the specification, so the strict reading of the
claim fails (see the counterexample). -/
theorem C6_version_detector (p : String) :
    (PyArchPath p →
      ∃ a b : String, p = a ++ "/archive/" ++ detect_current_version_from_path p ++ b
        ∧ exactVersionName (detect_current_version_from_path p) = true
        ∧ (b = "" ∨ b = "\n" ∨ ∃ b2 : String, b = "/" ++ b2))
    ∧ (detect_current_version_from_path p = "Latest" ↔ ¬ PyArchPath p)
    ∧ (StrictArchPath p → PyArchPath p) := by
  refine ⟨detect_pyArch p, detect_latest_iff p, ?_⟩
  intro ⟨a, v, b, hpeq, hex, hbs⟩
  exact ⟨a, v, b, hpeq, hex, by
    rcases hbs with h | h
    · exact Or.inl h
    · exact Or.inr (Or.inr h)⟩

theorem strictScan_of_strict (p : String) (hp : StrictArchPath p) :
    (scanSplit tryArchiveStrictAt p.data).isSome = true := by
  obtain ⟨a, v, b, hpeq, hexact, hbs⟩ := hp
  have h10 : v.data.length = 10 := versionShape_length _ hexact
  have htail : (b.data == [] || b.data.head? == some '/') = true := by
    rcases hbs with h | ⟨b2, h⟩ <;> subst h
    · rfl
    · simp [String.data_append]
  have htry : tryArchiveStrictAt ("/archive/".data ++ (v.data ++ b.data)) = some v := by
    have hml : matchLit "/archive/".data ("/archive/".data ++ (v.data ++ b.data))
        = some (v.data ++ b.data) := (matchLit_some_iff _ _ _).mpr rfl
    unfold tryArchiveStrictAt
    simp only [hml]
    have htake : List.take 10 (v.data ++ b.data) = v.data := by
      rw [← h10]
      exact List.take_left v.data b.data
    have hdrop : List.drop 10 (v.data ++ b.data) = b.data := by
      rw [← h10]
      exact List.drop_left v.data b.data
    have hvs : versionShape v.data = true := hexact
    rw [htake, hdrop, hvs, htail]
    simp [strMk_data]
  have hdata : p.data = a.data ++ ("/archive/".data ++ (v.data ++ b.data)) := by
    rw [hpeq]
    simp [String.data_append]
  rw [hdata]
  exact scanSplit_isSome_of _ a.data _ v htry

/-- C6 counterexample: the path `_site/archive/2024.01.01` followed by one
newline character contains no archive segment followed by a version-id
segment (its final segment carries the newline), yet the detector returns
`2024.01.01` instead of the sentinel `Latest`, because the `$` anchor of
the search pattern also matches just before one final trailing newline. -/
theorem C6_counterexample :
    detect_current_version_from_path "_site/archive/2024.01.01\n" = "2024.01.01"
    ∧ ¬ StrictArchPath "_site/archive/2024.01.01\n" := by
  constructor
  · decide
  · intro hs
    have h := strictScan_of_strict _ hs
    rw [show scanSplit tryArchiveStrictAt "_site/archive/2024.01.01\n".data = none
      from by decide] at h
    simp at h

/-! ## Claim C4: dropdown injector success condition and placement -/

theorem inject_dropdown_def (content frag : String) :
    inject_dropdown_into_html content frag =
      if occursIn (stripDropdown content) "</nav>" then
        some (replaceFirst (stripDropdown content) "</nav>"
          ((markerCssStr ++ "\n" ++ frag) ++ "\n</nav>"))
      else none := rfl

/-- C4 (amended): the dropdown injector succeeds exactly when the file
content, after stripping previously injected dropdown blocks (the
marker-identified list-item pattern), contains a closing nav tag; on
success the style block and the fragment are placed immediately before the
first closing nav tag of the stripped content; when no such tag remains
the operation fails with a signalled failure and nothing is written. -/
theorem C4_dropdown_injector (content frag : String) :
    ((inject_dropdown_into_html content frag).isSome
        = occursIn (stripDropdown content) "</nav>")
    ∧ (occursIn (stripDropdown content) "</nav>" = true →
        ∃ a b : String, stripDropdown content = a ++ "</nav>" ++ b
          ∧ occursIn a "</nav>" = false
          ∧ inject_dropdown_into_html content frag
              = some (a ++ (markerCssStr ++ "\n" ++ frag) ++ "\n</nav>" ++ b))
    ∧ (occursIn (stripDropdown content) "</nav>" = false →
        inject_dropdown_into_html content frag = none) := by
  refine ⟨?_, ?_, ?_⟩
  · cases hB : occursIn (stripDropdown content) "</nav>" with
    | false => rw [inject_dropdown_def, hB]; rfl
    | true => rw [inject_dropdown_def, hB]; rfl
  · intro hB
    obtain ⟨u, v, hsplit, hnou, hrep⟩ :=
      replaceFirst_of_occurs (stripDropdown content) "</nav>"
        ((markerCssStr ++ "\n" ++ frag) ++ "\n</nav>") (by decide) hB
    refine ⟨u, v, hsplit, hnou, ?_⟩
    rw [inject_dropdown_def, hB, if_pos rfl, hrep]
    simp [String.append_assoc]
  · intro hB
    rw [inject_dropdown_def, hB]
    rfl

/-- C4 counterexample: this file content contains a closing nav tag, but
the tag sits inside a previously injected dropdown block, the strip step
removes it together with the block, and the injector then fails — so
succeeding is not equivalent to the original content containing a closing
nav tag. -/
theorem C4_counterexample :
    occursIn "<li id=\"version-dropdown\" class=\"nav-item dropdown\"></nav></ul></li>"
        "</nav>" = true
    ∧ inject_dropdown_into_html
        "<li id=\"version-dropdown\" class=\"nav-item dropdown\"></nav></ul></li>"
        (generate_dropdown_html [] "course" none) = none := by
  constructor
  · decide
  · decide

/-! ## Claim C1: repeated dropdown injection -/

/-- C1, evaluated at the failing input: on the file content `<nav></nav>`
with the rendered fragment for no versions and prefix `course`, applying
the dropdown injector twice yields content of length 662 while applying it
once yields content of length 573 — the prepended style block (and the
whitespace left over from stripping) accumulates, so the two results
differ and the operation is not idempotent. -/
theorem C1_style_block_accumulates :
    ((inject_dropdown_into_html "<nav></nav>" (generate_dropdown_html [] "course" none)).bind
        (fun c => inject_dropdown_into_html c (generate_dropdown_html [] "course" none))
      ≠ inject_dropdown_into_html "<nav></nav>" (generate_dropdown_html [] "course" none))
    ∧ (inject_dropdown_into_html "<nav></nav>"
        (generate_dropdown_html [] "course" none)).map String.length = some 573
    ∧ ((inject_dropdown_into_html "<nav></nav>" (generate_dropdown_html [] "course" none)).bind
        (fun c => inject_dropdown_into_html c (generate_dropdown_html [] "course" none))).map
          String.length = some 662 := by
  refine ⟨by decide, by decide, by decide⟩

/-! ## Claims C7 and C8: deprecation banner injector -/

theorem deprecationWarningHtml_has_marker (pfx : String) :
    occursIn (deprecationWarningHtml pfx) deprecationMarker = true := by
  unfold deprecationWarningHtml
  exact occursIn_append_left _ _ _ (occursIn_append_left _ _ _ (by decide))

theorem inject_deprecation_of_marker (content pfx : String)
    (h : occursIn content deprecationMarker = true) :
    inject_deprecation_warning content pfx = (content, true) := by
  unfold inject_deprecation_warning
  rw [if_pos h]

theorem inject_deprecation_of_no_marker (content pfx : String)
    (h : occursIn content deprecationMarker = false) :
    inject_deprecation_warning content pfx =
      (replaceFirst content mainContentTag
        (mainContentTag ++ deprecationWarningHtml pfx), true) := by
  unfold inject_deprecation_warning
  rw [h]
  rfl

/-- C7: running the deprecation banner injector twice on the same content
inserts the banner exactly once: a second run is a no-op reported as
already-successful; when the marker is already present the run returns the
content unchanged; and on a first insertion the banner is placed exactly
once, right after the first occurrence of the main-content tag. -/
theorem C7_banner_idempotent (content pfx : String) :
    inject_deprecation_warning (inject_deprecation_warning content pfx).1 pfx
        = ((inject_deprecation_warning content pfx).1, true)
    ∧ (occursIn content deprecationMarker = true →
        inject_deprecation_warning content pfx = (content, true))
    ∧ (occursIn content deprecationMarker = false →
        occursIn content mainContentTag = true →
        ∃ a b : String, content = a ++ mainContentTag ++ b
          ∧ occursIn a mainContentTag = false
          ∧ (inject_deprecation_warning content pfx).1
              = a ++ mainContentTag ++ deprecationWarningHtml pfx ++ b) := by
  refine ⟨?_, inject_deprecation_of_marker content pfx, ?_⟩
  · cases hm : occursIn content deprecationMarker with
    | true =>
      rw [inject_deprecation_of_marker content pfx hm]
      exact inject_deprecation_of_marker content pfx hm
    | false =>
      cases hmt : occursIn content mainContentTag with
      | false =>
        rw [inject_deprecation_of_no_marker content pfx hm,
          replaceFirst_of_not _ _ _ hmt]
        rw [inject_deprecation_of_no_marker content pfx hm,
          replaceFirst_of_not _ _ _ hmt]
      | true =>
        obtain ⟨u, v, hsplit, _, hrep⟩ :=
          replaceFirst_of_occurs content mainContentTag
            (mainContentTag ++ deprecationWarningHtml pfx) (by decide) hmt
        rw [inject_deprecation_of_no_marker content pfx hm]
        have hc1 : occursIn (replaceFirst content mainContentTag
            (mainContentTag ++ deprecationWarningHtml pfx)) deprecationMarker = true := by
          rw [hrep]
          exact occursIn_append_left _ _ _ (occursIn_append_right _ _ _
            (occursIn_append_right _ _ _ (deprecationWarningHtml_has_marker pfx)))
        exact inject_deprecation_of_marker _ pfx hc1
  · intro hm hmt
    obtain ⟨u, v, hsplit, hnou, hrep⟩ :=
      replaceFirst_of_occurs content mainContentTag
        (mainContentTag ++ deprecationWarningHtml pfx) (by decide) hmt
    refine ⟨u, v, hsplit, hnou, ?_⟩
    rw [inject_deprecation_of_no_marker content pfx hm]
    rw [hrep]
    simp [String.append_assoc]

/-- C8: for content that contains neither the banner marker nor the
main-content opening tag, the deprecation banner substitution is a no-op
and the operation is reported as success — while the dropdown injector,
whose anchor is likewise missing, reports a failure for the same file. -/
theorem C8_banner_silent_success (content pfx frag : String)
    (h1 : occursIn content deprecationMarker = false)
    (h2 : occursIn content mainContentTag = false) :
    inject_deprecation_warning content pfx = (content, true)
    ∧ (occursIn (stripDropdown content) "</nav>" = false →
        inject_dropdown_into_html content frag = none) := by
  constructor
  · rw [inject_deprecation_of_no_marker content pfx h1, replaceFirst_of_not _ _ _ h2]
  · intro h3
    rw [inject_dropdown_def, h3]
    rfl

/-- C8 witness: the content `hello` contains neither the banner marker nor
the main-content tag; the banner injector leaves it unchanged and reports
success, and the dropdown injector fails on it. -/
theorem C8_witness :
    inject_deprecation_warning "hello" "course" = ("hello", true)
    ∧ (occursIn (stripDropdown "hello") "</nav>" = false →
        inject_dropdown_into_html "hello" "F" = none) :=
  C8_banner_silent_success "hello" "course" "F" (by decide) (by decide)

/-! ## Characterization of the marker-comment matcher -/

theorem take_runLen_all (p : Char → Bool) :
    ∀ l : List Char, ∀ c ∈ l.take (runLen p l), p c = true
  | [] => by simp
  | c :: cs => by
    intro d hd
    by_cases hc : p c
    · simp only [runLen, hc, if_true, List.take_succ_cons] at hd
      rcases List.mem_cons.mp hd with h | h
      · rw [h]; exact hc
      · exact take_runLen_all p cs d h
    · simp [runLen, hc] at hd

theorem length_take_runLen (p : Char → Bool) (l : List Char) :
    (l.take (runLen p l)).length = runLen p l := by
  rw [List.length_take]
  exact min_eq_left (runLen_le p l)

theorem ciEqList_ne_nil (u v : List Char) (h : ciEqList u v = true) (hv : v ≠ []) :
    u ≠ [] := by
  intro hu
  subst hu
  cases v with
  | nil => exact hv rfl
  | cons c cs => simp [ciEqList] at h

theorem markerLenGen_iff (A B C : List Char)
    (hBne : B ≠ [])
    (hBhead : ∀ c cs, ciEqList (c :: cs) B = true → pyWs c = false)
    (hCne : C ≠ [])
    (hChead : ∀ c cs, C = c :: cs → pyWs c = false)
    (l : List Char) (n : Nat) :
    markerLenGen A B C l = some n ↔
      ∃ w1 u w2 r, l = A ++ (w1 ++ (u ++ (w2 ++ (C ++ r))))
        ∧ (∀ c ∈ w1, pyWs c = true) ∧ (∀ c ∈ w2, pyWs c = true)
        ∧ ciEqList u B = true
        ∧ n = A.length + w1.length + B.length + w2.length + C.length := by
  constructor
  · intro h
    unfold markerLenGen at h
    split at h
    · exact absurd h (by simp)
    · next r1 hr1 =>
      split at h
      · exact absurd h (by simp)
      · next r2 hr2 =>
        split at h
        · next r3 hr3 =>
          have hn : n = A.length + wsCount r1 + B.length + wsCount r2 + C.length := by
            have := h
            simp only [Option.some.injEq] at this
            omega
          obtain ⟨u, hu, hciu⟩ := matchLitCI_some _ _ _ hr2
          have hl1 : l = A ++ r1 := (matchLit_some_iff _ _ _).mp hr1
          have hr1split : r1 = r1.take (wsCount r1) ++ (u ++ r2) := by
            rw [← hu, List.take_append_drop]
          have hr2split : r2 = r2.take (wsCount r2) ++ (C ++ r3) := by
            rw [← (matchLit_some_iff _ _ _).mp hr3, List.take_append_drop]
          have hw1all : ∀ c ∈ r1.take (wsCount r1), pyWs c = true := take_runLen_all pyWs r1
          have hw2all : ∀ c ∈ r2.take (wsCount r2), pyWs c = true := take_runLen_all pyWs r2
          have hw1len : (r1.take (wsCount r1)).length = wsCount r1 := length_take_runLen pyWs r1
          have hw2len : (r2.take (wsCount r2)).length = wsCount r2 := length_take_runLen pyWs r2
          generalize hW1 : r1.take (wsCount r1) = w1 at hr1split hw1all hw1len
          generalize hW2 : r2.take (wsCount r2) = w2 at hr2split hw2all hw2len
          refine ⟨w1, u, w2, r3, ?_, hw1all, hw2all, hciu, ?_⟩
          · rw [hl1, hr1split, hr2split]
          · omega
        · exact absurd h (by simp)
  · intro ⟨w1, u, w2, r, hl, hw1, hw2, hciu, hn⟩
    obtain ⟨c1, cs1, hu⟩ : ∃ c cs, u = c :: cs := by
      cases u with
      | nil => exact absurd rfl (ciEqList_ne_nil [] B hciu hBne)
      | cons c cs => exact ⟨c, cs, rfl⟩
    obtain ⟨c2, cs2, hC⟩ : ∃ c cs, C = c :: cs := by
      cases hCeq : C with
      | nil => exact absurd hCeq hCne
      | cons c cs => exact ⟨c, cs, rfl⟩
    have hml1 : matchLit A l = some (w1 ++ (u ++ (w2 ++ (C ++ r)))) := by
      rw [hl]
      exact (matchLit_some_iff _ _ _).mpr rfl
    have hws1 : wsCount (w1 ++ (u ++ (w2 ++ (C ++ r)))) = w1.length := by
      unfold wsCount
      rw [hu]
      rw [show w1 ++ (c1 :: cs1 ++ (w2 ++ (C ++ r)))
          = w1 ++ c1 :: (cs1 ++ (w2 ++ (C ++ r))) from by simp]
      exact runLen_append_stop pyWs w1 c1 _ hw1
        (hBhead c1 cs1 (by rw [← hu]; exact hciu))
    have hdrop1 : (w1 ++ (u ++ (w2 ++ (C ++ r)))).drop w1.length
        = u ++ (w2 ++ (C ++ r)) := List.drop_left _ _
    have hml2 : matchLitCI B (u ++ (w2 ++ (C ++ r))) = some (w2 ++ (C ++ r)) :=
      matchLitCI_of_ciEqList _ _ _ hciu
    have hws2 : wsCount (w2 ++ (C ++ r)) = w2.length := by
      unfold wsCount
      rw [hC]
      rw [show w2 ++ (c2 :: cs2 ++ r) = w2 ++ c2 :: (cs2 ++ r) from by simp]
      exact runLen_append_stop pyWs w2 c2 _ hw2 (hChead c2 cs2 hC)
    have hdrop2 : (w2 ++ (C ++ r)).drop w2.length = C ++ r := List.drop_left _ _
    have hml3 : matchLit C (C ++ r) = some r := (matchLit_some_iff _ _ _).mpr rfl
    unfold markerLenGen
    simp only [hml1]
    rw [hws1, hdrop1]
    simp only [hml2]
    rw [hws2, hdrop2]
    simp only [hml3]
    rw [hn]

theorem ciEq_A_not_ws (c : Char) (h : ciEq c 'A' = true) : pyWs c = false := by
  cases hw : pyWs c with
  | false => rfl
  | true =>
    exfalso
    unfold pyWs at hw
    simp only [Bool.or_eq_true, beq_iff_eq] at hw
    rcases hw with ((((h1 | h1) | h1) | h1) | h1) | h1 <;> subst h1 <;>
      exact absurd h (by decide)

theorem startB_head (c : Char) (cs : List Char)
    (h : ciEqList (c :: cs) "AUTOMATIC_VERSIONS_START".data = true) : pyWs c = false := by
  have hd : "AUTOMATIC_VERSIONS_START".data = 'A' :: "UTOMATIC_VERSIONS_START".data := rfl
  rw [hd] at h
  simp only [ciEqList, Bool.and_eq_true] at h
  exact ciEq_A_not_ws c h.1

theorem endB_head (c : Char) (cs : List Char)
    (h : ciEqList (c :: cs) "AUTOMATIC_VERSIONS_END".data = true) : pyWs c = false := by
  have hd : "AUTOMATIC_VERSIONS_END".data = 'A' :: "UTOMATIC_VERSIONS_END".data := rfl
  rw [hd] at h
  simp only [ciEqList, Bool.and_eq_true] at h
  exact ciEq_A_not_ws c h.1

theorem dashC_head (c : Char) (cs : List Char) (h : "-->".data = c :: cs) :
    pyWs c = false := by
  have hd : "-->".data = '-' :: "->".data := rfl
  rw [hd] at h
  injection h with h1 _
  rw [← h1]
  decide

theorem markerLenGen_take (A B C : List Char)
    (hBne : B ≠ [])
    (hBhead : ∀ c cs, ciEqList (c :: cs) B = true → pyWs c = false)
    (hCne : C ≠ [])
    (hChead : ∀ c cs, C = c :: cs → pyWs c = false)
    (l : List Char) (n : Nat)
    (h : markerLenGen A B C l = some n) :
    n ≤ l.length ∧ ∀ r2, markerLenGen A B C (l.take n ++ r2) = some n := by
  obtain ⟨w1, u, w2, r, hl, hw1, hw2, hciu, hn⟩ :=
    (markerLenGen_iff A B C hBne hBhead hCne hChead l n).mp h
  have hulen : u.length = B.length := ciEqList_length u B hciu
  have hP : l = (A ++ w1 ++ u ++ w2 ++ C) ++ r := by
    rw [hl]
    simp [List.append_assoc]
  have hPlen : (A ++ w1 ++ u ++ w2 ++ C).length = n := by
    simp only [List.length_append]
    omega
  constructor
  · rw [hP]
    simp only [List.length_append]
    omega
  · intro r2
    have htake : l.take n = A ++ w1 ++ u ++ w2 ++ C := by
      rw [hP, ← hPlen, List.take_left]
    rw [htake]
    exact (markerLenGen_iff A B C hBne hBhead hCne hChead _ n).mpr
      ⟨w1, u, w2, r2, by simp [List.append_assoc], hw1, hw2, hciu, hn⟩

theorem startMarkerLen_take (l : List Char) (n : Nat) (h : startMarkerLen l = some n) :
    n ≤ l.length ∧ ∀ r2, startMarkerLen (l.take n ++ r2) = some n :=
  markerLenGen_take _ _ _ (by decide) startB_head (by decide) dashC_head l n h

theorem endMarkerLen_take (l : List Char) (n : Nat) (h : endMarkerLen l = some n) :
    n ≤ l.length ∧ ∀ r2, endMarkerLen (l.take n ++ r2) = some n :=
  markerLenGen_take _ _ _ (by decide) endB_head (by decide) dashC_head l n h

theorem isStartMarkerText_extend (s : String) (hs : isStartMarkerText s = true)
    (X : List Char) : startMarkerLen (s.data ++ X) = some s.data.length := by
  have h : startMarkerLen s.data = some s.data.length := by
    simpa [isStartMarkerText] using hs
  have h2 := (startMarkerLen_take s.data s.data.length h).2 X
  rwa [List.take_length] at h2

theorem isEndMarkerText_extend (s : String) (hs : isEndMarkerText s = true)
    (X : List Char) : endMarkerLen (s.data ++ X) = some s.data.length := by
  have h : endMarkerLen s.data = some s.data.length := by
    simpa [isEndMarkerText] using hs
  have h2 := (endMarkerLen_take s.data s.data.length h).2 X
  rwa [List.take_length] at h2

theorem isStartMarkerText_of_take (l : List Char) (n : Nat)
    (h : startMarkerLen l = some n) :
    isStartMarkerText (String.mk (l.take n)) = true ∧ (l.take n).length = n := by
  have hle := (startMarkerLen_take l n h).1
  have hx := (startMarkerLen_take l n h).2 []
  rw [List.append_nil] at hx
  have hlen : (l.take n).length = n := by
    rw [List.length_take]
    omega
  refine ⟨?_, hlen⟩
  simp [isStartMarkerText, strData_mk, hx, hlen]

theorem isEndMarkerText_of_take (l : List Char) (n : Nat)
    (h : endMarkerLen l = some n) :
    isEndMarkerText (String.mk (l.take n)) = true ∧ (l.take n).length = n := by
  have hle := (endMarkerLen_take l n h).1
  have hx := (endMarkerLen_take l n h).2 []
  rw [List.append_nil] at hx
  have hlen : (l.take n).length = n := by
    rw [List.length_take]
    omega
  refine ⟨?_, hlen⟩
  simp [isEndMarkerText, strData_mk, hx, hlen]

theorem startTryAt_sound (suf g1 mid g3 post : List Char)
    (h : startTryAt suf = some (g1, mid, g3, post)) :
    suf = g1 ++ (mid ++ (g3 ++ post))
      ∧ isStartMarkerText (String.mk g1) = true
      ∧ isEndMarkerText (String.mk g3) = true := by
  unfold startTryAt at h
  split at h
  · exact absurd h (by simp)
  · next n hn =>
    split at h
    · next mid2 g32 post2 hsc =>
      obtain ⟨h1, h2, h3, h4⟩ :
          suf.take n = g1 ∧ mid2 = mid ∧ g32 = g3 ∧ post2 = post := by
        simpa using h
      obtain ⟨suf2, hd, hf⟩ := scanSplit_some _ _ _ _ hsc
      unfold endTryAt at hf
      split at hf
      · next n2 hn2 =>
        obtain ⟨h5, h6⟩ : suf2.take n2 = g3 ∧ suf2.drop n2 = post := by
          rw [← h3, ← h4]
          simpa using hf
        obtain ⟨hg1, hg1len⟩ := isStartMarkerText_of_take suf n hn
        obtain ⟨hg3, hg3len⟩ := isEndMarkerText_of_take suf2 n2 hn2
        have hsuf2 : suf2 = g3 ++ post := by
          rw [← h5, ← h6, List.take_append_drop]
        refine ⟨?_, by rw [← h1]; exact hg1, by rw [← h5]; exact hg3⟩
        rw [← List.take_append_drop n suf, h1, hd, h2, hsuf2]
      · exact absurd hf (by simp)
    · exact absurd h (by simp)

theorem startTryAt_isSome_at (s e : String) (m r : List Char)
    (hs : isStartMarkerText s = true) (he : isEndMarkerText e = true) :
    ∃ x, startTryAt (s.data ++ (m ++ (e.data ++ r))) = some x := by
  have h1 : startMarkerLen (s.data ++ (m ++ (e.data ++ r))) = some s.data.length :=
    isStartMarkerText_extend s hs _
  have hdrop : (s.data ++ (m ++ (e.data ++ r))).drop s.data.length = m ++ (e.data ++ r) :=
    List.drop_left _ _
  have h2 : endTryAt (e.data ++ r)
      = some ((e.data ++ r).take e.data.length, (e.data ++ r).drop e.data.length) := by
    unfold endTryAt
    rw [isEndMarkerText_extend e he r]
  have h3 : (scanSplit endTryAt (m ++ (e.data ++ r))).isSome = true :=
    scanSplit_isSome_of _ m _ _ h2
  obtain ⟨⟨mid, g3v, postv⟩, hsc⟩ := Option.isSome_iff_exists.mp h3
  refine ⟨((s.data ++ (m ++ (e.data ++ r))).take s.data.length, mid, g3v, postv), ?_⟩
  unfold startTryAt
  rw [h1]
  simp only [hdrop, hsc]

theorem markerScan_present (content : String)
    (h : (scanSplit startTryAt content.data).isSome = true) :
    MarkerPairPresent content := by
  obtain ⟨⟨pre, g1l, midl, g3l, postl⟩, hsc⟩ := Option.isSome_iff_exists.mp h
  obtain ⟨suf, hcd, hf⟩ := scanSplit_some _ _ _ _ hsc
  obtain ⟨hsufeq, hg1, hg3⟩ := startTryAt_sound suf g1l midl g3l postl hf
  refine ⟨String.mk pre, String.mk g1l, String.mk midl, String.mk g3l, String.mk postl,
    ?_, hg1, hg3⟩
  apply String.ext
  simp only [String.data_append, strData_mk]
  rw [hcd, hsufeq]
  simp [List.append_assoc]

theorem injectArchive_markers (content archive : String)
    (hp : MarkerPairPresent content) :
    ∃ a g1 m g3 b : String, content = a ++ g1 ++ m ++ g3 ++ b
      ∧ isStartMarkerText g1 = true ∧ isEndMarkerText g3 = true
      ∧ inject_archive_versions_into_versions_html content archive
          = some (a ++ g1 ++ "\n" ++ archive ++ g3 ++ b) := by
  obtain ⟨a0, s, m0, e, b0, hc, hs, he⟩ := hp
  have hdata : content.data = a0.data ++ (s.data ++ (m0.data ++ (e.data ++ b0.data))) := by
    rw [hc]
    simp [String.data_append, List.append_assoc]
  obtain ⟨x, hx⟩ := startTryAt_isSome_at s e m0.data b0.data hs he
  have hscan : (scanSplit startTryAt content.data).isSome = true := by
    rw [hdata]
    exact scanSplit_isSome_of _ a0.data _ x hx
  obtain ⟨⟨pre, g1l, midl, g3l, postl⟩, hsc⟩ := Option.isSome_iff_exists.mp hscan
  obtain ⟨suf, hcd, hf⟩ := scanSplit_some _ _ _ _ hsc
  obtain ⟨hsufeq, hg1, hg3⟩ := startTryAt_sound suf g1l midl g3l postl hf
  refine ⟨String.mk pre, String.mk g1l, String.mk midl, String.mk g3l, String.mk postl,
    ?_, hg1, hg3, ?_⟩
  · apply String.ext
    simp only [String.data_append, strData_mk]
    rw [hcd, hsufeq]
    simp [List.append_assoc]
  · unfold inject_archive_versions_into_versions_html
    rw [hsc]
    refine congrArg some ?_
    apply String.ext
    simp [String.data_append, strData_mk, List.append_assoc]

/-! ## The fallback list-group strategy of the archive injector -/

theorem matchCI_none_of_no_scan (pat : List Char) (_hne : pat ≠ [])
    (hnb : ∀ j, 0 < j → j < pat.length →
      ciEqList (pat.take (pat.length - j)) (pat.drop j) = false)
    (m b p2 s2 : List Char)
    (hno : scanSplit (fun t => matchLitCI pat t) m = none)
    (heq : m ++ (pat ++ b) = p2 ++ s2) (hlt : p2.length < m.length) :
    matchLitCI pat s2 = none := by
  cases hms : matchLitCI pat s2 with
  | none => rfl
  | some rest =>
    exfalso
    obtain ⟨u, hu, hciu⟩ := matchLitCI_some pat s2 rest hms
    have hulen : u.length = pat.length := ciEqList_length _ _ hciu
    have hs2 : s2 = m.drop p2.length ++ (pat ++ b) := by
      have h1 : s2 = (m ++ (pat ++ b)).drop p2.length := by
        rw [heq, List.drop_left]
      rw [h1, List.drop_append_of_le_length (le_of_lt hlt)]
    have hmdlen : (m.drop p2.length).length = m.length - p2.length := List.length_drop _ _
    have hueq : u = s2.take pat.length := by
      rw [hu, ← hulen, List.take_left]
    rcases Nat.lt_or_ge (m.drop p2.length).length pat.length with hc | hc
    · -- the occurrence would straddle the boundary: impossible by the border lemma
      have hu2 : u = m.drop p2.length ++ pat.take (pat.length - (m.drop p2.length).length) := by
        rw [hueq, hs2, List.take_append_eq_append_take,
          List.take_of_length_le (le_of_lt hc),
          List.take_append_of_le_length (by omega)]
      have hsplit := ciEqList_append_split (m.drop p2.length)
        (pat.take (pat.length - (m.drop p2.length).length)) pat (by rw [← hu2]; exact hciu)
      have := hnb (m.drop p2.length).length (by omega) hc
      rw [this] at hsplit
      exact absurd hsplit.2 (by simp)
    · -- the occurrence lies inside m: contradicts the absence hypothesis
      have hu3 : u = (m.drop p2.length).take pat.length := by
        rw [hueq, hs2, List.take_append_of_le_length hc]
      have hmd : m.drop p2.length = u ++ (m.drop p2.length).drop pat.length := by
        rw [hu3, List.take_append_drop]
      have hf : (matchLitCI pat (m.drop p2.length)).isSome = true := by
        rw [hmd, matchLitCI_of_ciEqList _ _ _ hciu]
        rfl
      have hnone := scanSplit_none _ m hno (m.take p2.length) (m.drop p2.length)
        (List.take_append_drop _ _).symm
      rw [hnone] at hf
      simp at hf

theorem closeDivNoBorder : ∀ j, 0 < j → j < "</div>".data.length →
    ciEqList ("</div>".data.take ("</div>".data.length - j)) ("</div>".data.drop j)
      = false := by
  intro j h1 h2
  rw [show "</div>".data.length = 6 from rfl] at h2
  interval_cases j <;> decide

theorem divOpenNoBorder : ∀ j, 0 < j → j < "<div".data.length →
    ciEqList ("<div".data.take ("<div".data.length - j)) ("<div".data.drop j)
      = false := by
  intro j h1 h2
  rw [show "<div".data.length = 4 from rfl] at h2
  interval_cases j <;> decide

theorem closeDiv_scan_exact (m b : List Char)
    (hno : scanSplit (fun t => matchLitCI "</div>".data t) m = none) :
    scanSplit closeDivAt (m ++ ("</div>".data ++ b)) = some (m, ("</div>".data, b)) := by
  apply scanSplit_exact
  · unfold closeDivAt
    rw [matchLitCI_of_ciEqList _ _ _ (ciEqList_refl _)]
    rw [show (6 : Nat) = "</div>".data.length from rfl, List.take_left]
  · intro p2 s2 heq hlt
    have hnone := matchCI_none_of_no_scan "</div>".data (by decide) closeDivNoBorder
      m b p2 s2 hno heq hlt
    unfold closeDivAt
    rw [hnone]

theorem divTryFullAt_none_of (s : List Char)
    (h : matchLitCI "<div".data s = none) : divTryFullAt s = none := by
  unfold divTryFullAt
  rw [h]

theorem divTryBFull_skip (w : List Char) (base : Nat) (aq : List Char) :
    ∀ hi lo : Nat, lo ≤ hi →
      (∀ j, lo < j → j ≤ hi → divTryBFullAt w base aq j = none) →
      divTryBFull w base aq hi = divTryBFull w base aq lo
  | 0, lo, hle, _ => by
    have h0 : lo = 0 := Nat.le_zero.mp hle
    rw [h0]
  | hi + 1, lo, hle, hfail => by
    rcases Nat.eq_or_lt_of_le hle with he | hlt
    · rw [he]
    · have h1 : divTryBFullAt w base aq (hi + 1) = none :=
        hfail (hi + 1) (by omega) (le_refl _)
      have h2 := divTryBFull_skip w base aq hi lo (by omega)
        (fun j hj1 hj2 => hfail j hj1 (by omega))
      show (divTryBFullAt w base aq (hi + 1)).orElse (fun _ => divTryBFull w base aq hi)
          = divTryBFull w base aq lo
      rw [h1, h2]
      rfl

theorem divTryAFull_skip (w : List Char) (s4 : List Char) :
    ∀ hi lo : Nat, lo ≤ hi →
      (∀ j, lo < j → j ≤ hi → divTryAFullAt w s4 j = none) →
      divTryAFull w s4 hi = divTryAFull w s4 lo
  | 0, lo, hle, _ => by
    have h0 : lo = 0 := Nat.le_zero.mp hle
    rw [h0]
  | hi + 1, lo, hle, hfail => by
    rcases Nat.eq_or_lt_of_le hle with he | hlt
    · rw [he]
    · have h1 : divTryAFullAt w s4 (hi + 1) = none :=
        hfail (hi + 1) (by omega) (le_refl _)
      have h2 := divTryAFull_skip w s4 hi lo (by omega)
        (fun j hj1 hj2 => hfail j hj1 (by omega))
      show (divTryAFullAt w s4 (hi + 1)).orElse (fun _ => divTryAFull w s4 hi)
          = divTryAFull w s4 lo
      rw [h1, h2]
      rfl

theorem divTryFullAt_canonical (m b : List Char)
    (hno : scanSplit (fun t => matchLitCI "</div>".data t) m = none) :
    divTryFullAt ("<div class=\"list-group\">".data ++ (m ++ ("</div>".data ++ b)))
      = some ("<div class=\"list-group\">".data, m, "</div>".data, b) := by
  have hdrop : ("<div class=\"list-group\">".data ++ (m ++ ("</div>".data ++ b))).drop 24
      = m ++ ("</div>".data ++ b) := by
    rw [show (24 : Nat) = "<div class=\"list-group\">".data.length from rfl]
    exact List.drop_left _ _
  have hclose := closeDiv_scan_exact m b hno
  have hb0 : divTryBFullAt ("<div class=\"list-group\">".data ++ (m ++ ("</div>".data ++ b)))
      12 ("list-group\">".data ++ (m ++ ("</div>".data ++ b))) 0
      = some (24, m, "</div>".data, b) := by
    rw [show divTryBFullAt ("<div class=\"list-group\">".data ++ (m ++ ("</div>".data ++ b)))
        12 ("list-group\">".data ++ (m ++ ("</div>".data ++ b))) 0
      = (match scanSplit closeDivAt
          (("<div class=\"list-group\">".data ++ (m ++ ("</div>".data ++ b))).drop 24) with
        | some (mid, g3, post) => some (24, mid, g3, post)
        | none => none) from rfl]
    rw [hdrop, hclose]
  have hskipB : ∀ j, 0 < j → j ≤ 10 →
      divTryBFullAt ("<div class=\"list-group\">".data ++ (m ++ ("</div>".data ++ b)))
        12 ("list-group\">".data ++ (m ++ ("</div>".data ++ b))) j = none := by
    intro j h1 h2
    interval_cases j <;> rfl
  have hB : divTryBFull ("<div class=\"list-group\">".data ++ (m ++ ("</div>".data ++ b)))
      12 ("list-group\">".data ++ (m ++ ("</div>".data ++ b))) 10
      = some (24, m, "</div>".data, b) := by
    rw [divTryBFull_skip _ 12 _ 10 0 (by omega) (fun j hj1 hj2 => hskipB j hj1 hj2)]
    exact hb0
  have hskipA : ∀ j, 1 < j → j ≤ 19 →
      divTryAFullAt ("<div class=\"list-group\">".data ++ (m ++ ("</div>".data ++ b)))
        (" class=\"list-group\">".data ++ (m ++ ("</div>".data ++ b))) j = none := by
    intro j h1 h2
    interval_cases j <;> rfl
  have hA1 : divTryAFullAt ("<div class=\"list-group\">".data ++ (m ++ ("</div>".data ++ b)))
      (" class=\"list-group\">".data ++ (m ++ ("</div>".data ++ b))) 1
      = divTryBFull ("<div class=\"list-group\">".data ++ (m ++ ("</div>".data ++ b)))
        12 ("list-group\">".data ++ (m ++ ("</div>".data ++ b))) 10 := rfl
  have hA : divTryAFull ("<div class=\"list-group\">".data ++ (m ++ ("</div>".data ++ b)))
      (" class=\"list-group\">".data ++ (m ++ ("</div>".data ++ b))) 19
      = some (24, m, "</div>".data, b) := by
    rw [divTryAFull_skip _ _ 19 1 (by omega) hskipA]
    show (divTryAFullAt ("<div class=\"list-group\">".data ++ (m ++ ("</div>".data ++ b)))
        (" class=\"list-group\">".data ++ (m ++ ("</div>".data ++ b))) 1).orElse
        (fun _ => divTryAFull ("<div class=\"list-group\">".data ++ (m ++ ("</div>".data ++ b)))
          (" class=\"list-group\">".data ++ (m ++ ("</div>".data ++ b))) 0)
        = some (24, m, "</div>".data, b)
    rw [hA1, hB]
    rfl
  rw [show divTryFullAt ("<div class=\"list-group\">".data ++ (m ++ ("</div>".data ++ b)))
      = (match divTryAFull ("<div class=\"list-group\">".data ++ (m ++ ("</div>".data ++ b)))
          (" class=\"list-group\">".data ++ (m ++ ("</div>".data ++ b))) 19 with
        | some (n, mid, g3, post) =>
          some (("<div class=\"list-group\">".data ++ (m ++ ("</div>".data ++ b))).take n,
            mid, g3, post)
        | none => none) from rfl]
  rw [hA]
  show some (("<div class=\"list-group\">".data ++ (m ++ ("</div>".data ++ b))).take 24,
      m, "</div>".data, b)
    = some ("<div class=\"list-group\">".data, m, "</div>".data, b)
  rw [show ("<div class=\"list-group\">".data ++ (m ++ ("</div>".data ++ b))).take 24
      = "<div class=\"list-group\">".data from by
    rw [show (24 : Nat) = "<div class=\"list-group\">".data.length from rfl]
    exact List.take_left _ _]

theorem injectArchive_fallback (a m b archive : String)
    (hnm : ¬ MarkerPairPresent (a ++ listGroupTag ++ m ++ "</div>" ++ b))
    (hna : occursInCI a "<div" = false)
    (hnc : occursInCI m "</div>" = false) :
    inject_archive_versions_into_versions_html
        (a ++ listGroupTag ++ m ++ "</div>" ++ b) archive
      = some (a ++ listGroupTag ++ archive ++ "</div>" ++ b) := by
  have hms : scanSplit startTryAt (a ++ listGroupTag ++ m ++ "</div>" ++ b).data = none := by
    cases hx : scanSplit startTryAt (a ++ listGroupTag ++ m ++ "</div>" ++ b).data with
    | none => rfl
    | some pr =>
      exact absurd (markerScan_present _ (by rw [hx]; rfl)) hnm
  have hnoA : scanSplit (fun t => matchLitCI "<div".data t) a.data = none := by
    cases hx : scanSplit (fun t => matchLitCI "<div".data t) a.data with
    | none => rfl
    | some pr =>
      unfold occursInCI at hna
      rw [hx] at hna
      simp at hna
  have hnoM : scanSplit (fun t => matchLitCI "</div>".data t) m.data = none := by
    cases hx : scanSplit (fun t => matchLitCI "</div>".data t) m.data with
    | none => rfl
    | some pr =>
      unfold occursInCI at hnc
      rw [hx] at hnc
      simp at hnc
  have hdata : (a ++ listGroupTag ++ m ++ "</div>" ++ b).data
      = a.data ++ ("<div class=\"list-group\">".data
          ++ (m.data ++ ("</div>".data ++ b.data))) := by
    simp [listGroupTag, String.data_append, List.append_assoc]
  have hdiv : scanSplit divTryFullAt
      (a.data ++ ("<div class=\"list-group\">".data ++ (m.data ++ ("</div>".data ++ b.data))))
      = some (a.data, ("<div class=\"list-group\">".data, m.data, "</div>".data, b.data)) := by
    apply scanSplit_exact
    · exact divTryFullAt_canonical m.data b.data hnoM
    · intro p2 s2 heq hlt
      apply divTryFullAt_none_of
      apply matchCI_none_of_no_scan "<div".data (by decide) divOpenNoBorder a.data
        (" class=\"list-group\">".data ++ (m.data ++ ("</div>".data ++ b.data))) p2 s2 hnoA
        ?_ hlt
      rw [← heq]
      rw [show ("<div class=\"list-group\">".data : List Char)
          = "<div".data ++ " class=\"list-group\">".data from rfl]
      simp [List.append_assoc]
  unfold inject_archive_versions_into_versions_html
  rw [hms]
  rw [show (a ++ listGroupTag ++ m ++ "</div>" ++ b).data
      = a.data ++ ("<div class=\"list-group\">".data
          ++ (m.data ++ ("</div>".data ++ b.data))) from hdata]
  rw [hdiv]
  refine congrArg some ?_
  apply String.ext
  simp [String.data_append, strData_mk, listGroupTag, List.append_assoc]

/-- C9: the archive-list injector applies exactly one of two strategies in
order. (a) When the sentinel start/end marker comments are present, the content
is decomposed around the first marker pair and the region strictly between the
markers is replaced by a newline plus the rendered fragment, both markers left
intact. (b) Otherwise, on a content consisting of the canonical list-group
container tag with no earlier case-insensitive div opening and no earlier
closing tag inside it, the inner content of that first container is replaced by
the fragment. (c) When neither scanner matches, the operation fails (returns
none) and the content is unchanged. -/
theorem C9_archive_injector (content archive : String) :
    (MarkerPairPresent content →
      ∃ a g1 m g3 b : String, content = a ++ g1 ++ m ++ g3 ++ b
        ∧ isStartMarkerText g1 = true ∧ isEndMarkerText g3 = true
        ∧ inject_archive_versions_into_versions_html content archive
            = some (a ++ g1 ++ "\n" ++ archive ++ g3 ++ b))
    ∧ (∀ a m b : String,
        content = a ++ listGroupTag ++ m ++ "</div>" ++ b →
        ¬ MarkerPairPresent content →
        occursInCI a "<div" = false →
        occursInCI m "</div>" = false →
        inject_archive_versions_into_versions_html content archive
          = some (a ++ listGroupTag ++ archive ++ "</div>" ++ b))
    ∧ (scanSplit startTryAt content.data = none →
        scanSplit divTryFullAt content.data = none →
        inject_archive_versions_into_versions_html content archive = none) := by
  refine ⟨fun hp => injectArchive_markers content archive hp, ?_, ?_⟩
  · intro a m b hc hnm hna hnc
    subst hc
    exact injectArchive_fallback a m b archive hnm hna hnc
  · intro h1 h2
    unfold inject_archive_versions_into_versions_html
    rw [h1, h2]

/-- C5 counterexample: on the empty version sequence the archive renderer
returns the empty string, yet the injection step does NOT leave a marker file
unchanged: the text between the markers is replaced by a lone newline, so the
result differs from the original content. -/
theorem C5_counterexample :
    generate_archive_versions_html [] "course" = ""
    ∧ mainVersionsStep
        "<p><!-- AUTOMATIC_VERSIONS_START -->OLD<!-- AUTOMATIC_VERSIONS_END --></p>"
        [] "course"
      = some "<p><!-- AUTOMATIC_VERSIONS_START -->\n<!-- AUTOMATIC_VERSIONS_END --></p>"
    ∧ mainVersionsStep
        "<p><!-- AUTOMATIC_VERSIONS_START -->OLD<!-- AUTOMATIC_VERSIONS_END --></p>"
        [] "course"
      ≠ some "<p><!-- AUTOMATIC_VERSIONS_START -->OLD<!-- AUTOMATIC_VERSIONS_END --></p>" :=
  ⟨rfl, by decide, by decide⟩

/-- C5 (amended): for every prefix the Archive List Renderer returns the empty
string on an empty version sequence; the injection step is nevertheless still
performed, replacing the region between the sentinel markers with a lone
newline (the marker-preserving substitution applied to an empty fragment), so
a versions file whose marker region is non-empty is modified, not left
unchanged. -/
theorem C5_empty_versions (pfx : String) :
    generate_archive_versions_html [] pfx = ""
    ∧ mainVersionsStep
        "<p><!-- AUTOMATIC_VERSIONS_START -->OLD<!-- AUTOMATIC_VERSIONS_END --></p>"
        [] "course"
      = some "<p><!-- AUTOMATIC_VERSIONS_START -->\n<!-- AUTOMATIC_VERSIONS_END --></p>" :=
  ⟨rfl, by decide⟩

/-- C9 counterexample: on a legacy file whose list-group container holds a
nested child div, the fallback replacement stops at the first closing div tag
(the one closing the nested child), so the rest of the container inner
content (here the text TAIL) survives; the result differs from what replacing
the first container entire inner content with the fragment would give. -/
theorem C9_counterexample :
    inject_archive_versions_into_versions_html
        "<div class=\"list-group\"><div class=\"x\">A</div>TAIL</div>" "NEW"
      = some "<div class=\"list-group\">NEW</div>TAIL</div>"
    ∧ inject_archive_versions_into_versions_html
        "<div class=\"list-group\"><div class=\"x\">A</div>TAIL</div>" "NEW"
      ≠ some "<div class=\"list-group\">NEW</div>" :=
  ⟨by decide, by decide⟩
